import Mathlib

/-!
# The memcached text-protocol client of `memcached/cmd.go`

A shallow embedding of the request builder (`runStorageCmd`), the error
classifiers (`checkError`, `checkStorageCmdResp`) and the fetch-response parser
(`parseFetchResp`, `runFetchCmd`, `Get`, `Gets`), followed by the properties
proved about them.

Conventions of the embedding:

* a Go `string` or `[]byte` is a list of bytes, a byte being a natural number
  (below 256; no function here inspects the bound);
* a Go call ends in one of three ways: it returns its value, it returns a
  non-nil `error`, or it panics (a failed type assertion, a slice bound out of
  range);
* `int` is the 64-bit signed integer: the one sum with an operand read from the
  wire is reduced to 64 bits, every other sum is bounded by the length of the
  buffer;
* the connection is a collaborator outside `cmd.go`: it is a parameter that
  maps the request passed to `Send` to the reply, and every call of `Send` is
  recorded.
-/

namespace Memcached

/-! ## Strings and the library functions used by `cmd.go` -/

/-- A Go `string` or `[]byte`. -/
abbrev GoString := List Nat

/-- UTF-8 encoding of the code point `r`, as the Go conversion `string(rune)` computes it:
surrogates and values above U+10FFFF become U+FFFD. -/
def encodeRune (r : Nat) : GoString :=
  if r < 0x80 then [r]
  else if r < 0x800 then [0xC0 + r / 64, 0x80 + r % 64]
  else if 0xD800 ≤ r ∧ r ≤ 0xDFFF then [0xEF, 0xBF, 0xBD]
  else if r < 0x10000 then [0xE0 + r / 4096, 0x80 + r / 64 % 64, 0x80 + r % 64]
  else if r ≤ 0x10FFFF then
    [0xF0 + r / 262144, 0x80 + r / 4096 % 64, 0x80 + r / 64 % 64, 0x80 + r % 64]
  else [0xEF, 0xBF, 0xBD]

/-- The Go conversion `string(i)` of an `int`: the UTF-8 encoding of the code point `i`,
and U+FFFD when `i` is not a code point. -/
def stringOfInt (i : Int) : GoString :=
  if i < 0 then [0xEF, 0xBF, 0xBD] else encodeRune i.toNat

/-- The bytes of a string literal of the source (Go source text is UTF-8). -/
def utf8 (s : String) : GoString :=
  (s.toList.map fun c => encodeRune c.toNat).flatten

/-- The separator `"\r\n"`. -/
def CRLF : GoString := [13, 10]

/-- Decimal digits of `n`, most significant first; `fuel` bounds the number of digits. -/
def decimal : Nat → Nat → GoString
  | 0, _ => []
  | fuel + 1, n => if n < 10 then [48 + n] else decimal fuel (n / 10) ++ [48 + n % 10]

/-- The library function `strconv.Itoa`. -/
def Itoa (i : Int) : GoString :=
  if i < 0 then 45 :: decimal (i.natAbs + 1) i.natAbs else decimal (i.natAbs + 1) i.natAbs

/-- Whether the byte is one of `'0'` .. `'9'`. -/
def isDigit (c : Nat) : Bool := 48 ≤ c && c ≤ 57

/-- The number written by a sequence of decimal digits. -/
def digitsValue (ds : GoString) : Nat :=
  ds.foldl (fun n ch => n * 10 + (ch - 48)) 0

/-- The digit loop of `strconv.ParseUint` in base 10 and 64 bits, from the accumulated
number `n`. The bytes are read from left to right: the first byte that is not a digit
gives the syntax error (`none`); the first digit that takes the number above `2^64-1`
gives the range error with the value `2^64-1` (`false`), and the bytes after it are not
read; at the end of the text the number is returned (`true`). -/
def parseUintLoop : GoString → Nat → Option (Nat × Bool)
  | [], n => some (n, true)
  | c :: rest, n =>
    if isDigit c = false then none
    else if 2 ^ 64 ≤ n * 10 + (c - 48) then some (2 ^ 64 - 1, false)
    else parseUintLoop rest (n * 10 + (c - 48))

/-- The library function `strconv.Atoi` on a 64-bit platform: the value and whether the
error is nil. An optional sign is followed by the digits, read by `ParseUint`: a syntax
error (no digit, or a byte that is not a digit) gives 0; a number outside the range of
`int`, or a range error of `ParseUint`, gives the nearest bound. -/
def Atoi (s : GoString) : Int × Bool :=
  match s with
  | [] => (0, false)
  | c :: rest =>
    let ds := if c = 45 ∨ c = 43 then rest else s
    if ds = [] then (0, false)
    else
      match parseUintLoop ds 0 with
      | none => (0, false)
      | some (un, _) =>
        if c ≠ 45 ∧ 2 ^ 63 ≤ un then (2 ^ 63 - 1, false)
        else if c = 45 ∧ 2 ^ 63 < un then (-(2 ^ 63), false)
        else (if c = 45 then -(un : Int) else (un : Int), true)

/-- Reduction of an integer to the 64-bit signed range (two's complement). -/
def int64 (x : Int) : Int := (x + 2 ^ 63) % 2 ^ 64 - 2 ^ 63

/-- The library function `strings.TrimRight` for a cutset of ASCII bytes: every trailing
byte that belongs to the cutset is removed. -/
def TrimRight (s cutset : GoString) : GoString :=
  (s.reverse.dropWhile fun c => decide (c ∈ cutset)).reverse

/-- The library function `bytes.HasPrefix` (`strings.HasPrefix`). -/
def HasPrefix (s pre : GoString) : Bool := pre.isPrefixOf s

/-- The library function `bytes.Index` (`strings.Index`): the position of the first
occurrence of `sep` in `s`; `none` stands for the -1 of Go. -/
def Index : GoString → GoString → Option Nat
  | [], sep => if sep = [] then some 0 else none
  | c :: rest, sep =>
    if sep.isPrefixOf (c :: rest) then some 0 else (Index rest sep).map (· + 1)

/-- The loop of `genSplit`: cut at the first occurrence of `sep`, continue after it. -/
def splitLoop (sep : GoString) : Nat → GoString → List GoString
  | 0, s => [s]
  | fuel + 1, s =>
    match Index s sep with
    | none => [s]
    | some m => s.take m :: splitLoop sep fuel (s.drop (m + sep.length))

/-- The library function `strings.Split` (`bytes.Split`) for a non-empty separator. There
are at most `len(s)` occurrences of the separator, which bounds the loop. -/
def Split (s sep : GoString) : List GoString := splitLoop sep s.length s

/-- The library function `strings.Join`. -/
def Join : List GoString → GoString → GoString
  | [], _ => []
  | [a], _ => a
  | a :: b :: rest, sep => a ++ sep ++ Join (b :: rest) sep

/-- The regular expression `.+` followed by the literal `lit`, matched at the start of the
text: one byte other than the line feed, then either `lit` or more of the same. (Go
matches `.` against code points; a code point other than the line feed is a run of bytes
none of which is the line feed, and the literals here are ASCII.) -/
def dotPlusThen (lit : GoString) : GoString → Bool
  | [] => false
  | c :: rest => c != 10 && (lit.isPrefixOf rest || dotPlusThen lit rest)

/-- The library function `regexp.MatchString` for a pattern `pre .+ post` made of two
literals around `.+`: the pattern is not anchored, a match may start at any position. -/
def MatchString (pre post : GoString) : GoString → Bool
  | [] => pre.isPrefixOf [] && dotPlusThen post ([].drop pre.length)
  | c :: rest =>
    (pre.isPrefixOf (c :: rest) && dotPlusThen post ((c :: rest).drop pre.length))
      || MatchString pre post rest

/-! ## Errors, results and maps -/

/-- Modelled from the spec: the error types `NotValidRespError`, `NotStoredError`,
`ExistsError` and `NotFoundError` are declared outside `cmd.go` (string types carrying
the message); `errorsNew` is the value of `errors.New`, `transport` an error returned by
the connection. -/
inductive GoError where
  | errorsNew (msg : GoString)
  | NotValidRespError (msg : GoString)
  | NotStoredError (msg : GoString)
  | ExistsError (msg : GoString)
  | NotFoundError (msg : GoString)
  | transport (code : Nat)
  deriving DecidableEq, Repr

/-- How a call ends: with its value (and a nil error), with an error, with a panic; `stuck`
is the answer of a loop of the embedding that ran out of its iteration bound. -/
inductive Result (α : Type) where
  | ok (a : α)
  | error (e : GoError)
  | panic
  | stuck
  deriving DecidableEq, Repr

/-- A Go `map[string]string`, as the list of its entries in the order in which the keys
were first stored. -/
abbrev GoMap := List (GoString × GoString)

/-- The map read `m[k]`, with `none` for an absent key. -/
def mapGet : GoMap → GoString → Option GoString
  | [], _ => none
  | (k', v') :: rest, k => if k' = k then some v' else mapGet rest k

/-- The map write `m[k] = v`. -/
def mapSet : GoMap → GoString → GoString → GoMap
  | [], k, v => [(k, v)]
  | (k', v') :: rest, k, v => if k' = k then (k, v) :: rest else (k', v') :: mapSet rest k v

/-- The constant `SET_FLAGS`. -/
def SET_FLAGS : Int := 123456

/-- The constant `NOT_VALID_RESP_MSG`. -/
def NOT_VALID_RESP_MSG : GoString := utf8 "无效的服务器响应数据"

/-! ## The error classifiers -/

/-- The method `checkError`: `none` is the nil error. The two patterns are
`"CLIENT_ERROR .+\r\n"` and `"SERVER_ERROR .+\r\n"`. -/
def checkError (resp : GoString) : Option GoError :=
  if resp = utf8 "ERROR\r\n" then
    some (.errorsNew (utf8 "发生错误：ERROR"))
  else if MatchString (utf8 "CLIENT_ERROR ") CRLF resp then
    some (.errorsNew (utf8 "发生错误：" ++ TrimRight resp CRLF))
  else if MatchString (utf8 "SERVER_ERROR ") CRLF resp then
    some (.errorsNew (utf8 "发生错误：" ++ TrimRight resp CRLF))
  else none

/-- The table `ERRORS` of `checkStorageCmdResp`, in the order of the source text. -/
def ERRORS : List (GoString × Option GoError) :=
  [ (utf8 "STORED\r\n", none),
    (utf8 "NOT_STORED\r\n", some (.NotStoredError (utf8 "未能存储数据"))),
    (utf8 "EXISTS\r\n", some (.ExistsError (utf8 "数据已存在/已被别人修改"))),
    (utf8 "NOT_FOUND\r\n", some (.NotFoundError (utf8 "未找到对应的数据"))) ]

/-- The body of `checkStorageCmdResp` for one iteration order of the table: the value of
the first entry whose key equals the response, and the unknown-error value after the
loop. -/
def rangeERRORS (table : List (GoString × Option GoError)) (resp : GoString) :
    Option GoError :=
  match table.find? (fun kv => decide (resp = kv.1)) with
  | some kv => kv.2
  | none => some (.errorsNew (utf8 "未知错误：" ++ resp))

/-- The method `checkStorageCmdResp`: `none` is the nil error. -/
def checkStorageCmdResp (resp : GoString) : Option GoError :=
  rangeERRORS ERRORS resp

/-! ## Storage commands -/

/-- A value stored in an `interface{}`: a `string`, an `int`, or a value of any other
type (the nil interface included). -/
inductive GoValue where
  | str (s : GoString)
  | int (i : Int)
  | other
  deriving DecidableEq, Repr

/-- The argument bag `storageCmdArgStruct` (a `map[string]interface{}`), given by its
entries at the five keys that `runStorageCmd` reads; `none` is an absent key. -/
structure storageCmdArgStruct where
  key : Option GoValue
  value : Option GoValue
  flags : Option GoValue
  expire_time : Option GoValue
  cas_unique : Option GoValue
  deriving DecidableEq, Repr

/-- The connection: the reply of `Send` to the arguments it is called with, an error or
the bytes of the response. -/
abbrev Connection := List GoString → Except GoError GoString

/-- Lines 83 to 88 of `runStorageCmd`: the text of the `flags` field, the decimal
rendering of `SET_FLAGS` by default and the conversion `string(flags.(int))` otherwise. -/
def flagsText : Option GoValue → Result GoString
  | none => .ok (Itoa SET_FLAGS)
  | some (.int flags) => .ok (stringOfInt flags)
  | some (.str _) => .panic
  | some .other => .panic

/-- Lines 89 to 94 of `runStorageCmd`: the text of the `expire_time` field, `"0"` by
default and the conversion `string(expTime.(int))` otherwise. -/
def expTimeText : Option GoValue → Result GoString
  | none => .ok (utf8 "0")
  | some (.int expTime) => .ok (stringOfInt expTime)
  | some (.str _) => .panic
  | some .other => .panic

/-- Lines 96 to 100 of `runStorageCmd`: what is appended to `argList`, the cas token when
the command is `cas` and the token is supplied. -/
def casText (cmdName : GoString) (casArg : Option GoValue) : Result (List GoString) :=
  if cmdName = utf8 "cas" then
    match casArg with
    | none => .ok []
    | some (.str casUnique) => .ok [casUnique]
    | some (.int _) => .panic
    | some .other => .panic
  else .ok []

/-- The list `argList` of `runStorageCmd`, lines 68 to 100: the checks of the required
arguments, the defaults of the optional ones and the type assertions, in the order of
the source. -/
def storageArgList (cmdName : GoString) (args : storageCmdArgStruct) :
    Result (List GoString) :=
  match args.key with
  | none => .error (.errorsNew (utf8 "缺少参数key"))
  | some (.int _) => .panic
  | some .other => .panic
  | some (.str key) =>
    match args.value with
    | none => .error (.errorsNew (utf8 "缺少参数value"))
    | some (.int _) => .panic
    | some .other => .panic
    | some (.str value) =>
      match flagsText args.flags with
      | .error e => .error e
      | .panic => .panic
      | .stuck => .stuck
      | .ok flags =>
        match expTimeText args.expire_time with
        | .error e => .error e
        | .panic => .panic
        | .stuck => .stuck
        | .ok expTime =>
          match casText cmdName args.cas_unique with
          | .error e => .error e
          | .panic => .panic
          | .stuck => .stuck
          | .ok cas => .ok ([key, flags, expTime, Itoa (value.length : Int)] ++ cas)

/-- The two arguments that `runStorageCmd` passes to `Send`, lines 102 and 103: the
command line and the payload line. The payload is the `value` argument, a string once
`storageArgList` has returned. -/
def storageRequest (cmdName : GoString) (args : storageCmdArgStruct) :
    Result (List GoString) :=
  match storageArgList cmdName args, args.value with
  | .ok argList, some (.str value) =>
    .ok [cmdName ++ utf8 " " ++ Join argList (utf8 " ") ++ CRLF, value ++ CRLF]
  | .ok _, _ => .panic
  | .error e, _ => .error e
  | .panic, _ => .panic
  | .stuck, _ => .stuck

/-- The method `runStorageCmd`: the error it returns (`ok ()` is nil) and the calls of
`Send` it made. -/
def runStorageCmd (conn : Connection) (cmdName : GoString) (args : storageCmdArgStruct) :
    Result Unit × List (List GoString) :=
  match storageRequest cmdName args with
  | .error e => (.error e, [])
  | .panic => (.panic, [])
  | .stuck => (.stuck, [])
  | .ok request =>
    match conn request with
    | .error err => (.error err, [request])
    | .ok resp =>
      match checkError resp with
      | some err => (.error err, [request])
      | none =>
        match checkStorageCmdResp resp with
        | some err => (.error err, [request])
        | none => (.ok (), [request])

/-- The method `Set`. -/
def Set (conn : Connection) (args : storageCmdArgStruct) := runStorageCmd conn (utf8 "set") args

/-- The method `Add`. -/
def Add (conn : Connection) (args : storageCmdArgStruct) := runStorageCmd conn (utf8 "add") args

/-- The method `Replace`. -/
def Replace (conn : Connection) (args : storageCmdArgStruct) :=
  runStorageCmd conn (utf8 "replace") args

/-- The method `Append`. -/
def Append (conn : Connection) (args : storageCmdArgStruct) :=
  runStorageCmd conn (utf8 "append") args

/-- The method `Prepend`. -/
def Prepend (conn : Connection) (args : storageCmdArgStruct) :=
  runStorageCmd conn (utf8 "prepend") args

/-- The method `Cas`. -/
def Cas (conn : Connection) (args : storageCmdArgStruct) := runStorageCmd conn (utf8 "cas") args

/-! ## Fetch commands -/

/-- How one iteration of the scanning loop of `parseFetchResp` ends: with the error
return, with a panic, or with the remaining buffer and the map for the next test of the
loop condition. -/
inductive Step where
  | fail (e : GoError)
  | panic
  | next (filteredResp : GoString) (parsedKV : GoMap)
  deriving DecidableEq, Repr

/-- The body of the loop of `parseFetchResp`, lines 159 to 185, on a non-empty buffer.

The slice `filteredResp[dataBeginPosition:dataEndPosition]` of line 178 panics when
`dataEndPosition` is below `dataBeginPosition` or above the capacity of the buffer. When
`dataEndPosition` is within the capacity but above the length, line 178 passes and the
slice `filteredResp[dataEndPosition+lineBreakLength:]` of line 184 panics, its low bound
being above the length: every `dataEndPosition` above the length ends in a panic, which
is what the embedding records. -/
def fetchStep (filteredResp : GoString) (parsedKV : GoMap) : Step :=
  if HasPrefix filteredResp (utf8 "VALUE ") = false then
    .fail (.NotValidRespError NOT_VALID_RESP_MSG)
  else
    match Index filteredResp CRLF with
    | none => .fail (.NotValidRespError NOT_VALID_RESP_MSG)
    | some lineBreakPosition =>
      let itemMetaLine := filteredResp.take lineBreakPosition
      let metaLineParts := Split itemMetaLine (utf8 " ")
      if metaLineParts.length ≠ 4 then
        .fail (.NotValidRespError NOT_VALID_RESP_MSG)
      else
        let targetKey := metaLineParts.getD 1 []
        let dataBeginPosition : Int := lineBreakPosition + CRLF.length
        let targetValueLength := (Atoi (metaLineParts.getD 3 [])).1
        let dataEndPosition := int64 (dataBeginPosition + targetValueLength)
        if dataEndPosition < dataBeginPosition ∨ (filteredResp.length : Int) < dataEndPosition then
          .panic
        else
          let targetValue :=
            (filteredResp.take dataEndPosition.toNat).drop dataBeginPosition.toNat
          let parsedKV := mapSet parsedKV targetKey targetValue
          if dataEndPosition = filteredResp.length then
            .next [] parsedKV
          else if (filteredResp.length : Int) < dataEndPosition + CRLF.length then
            .panic
          else
            .next (filteredResp.drop (dataEndPosition + CRLF.length).toNat) parsedKV

/-- The loop `for len(filteredResp) > 0` of `parseFetchResp`, with a bound on the number
of iterations. -/
def fetchLoop : Nat → GoString → GoMap → Result GoMap
  | 0, filteredResp, parsedKV =>
    if 0 < filteredResp.length then .stuck else .ok parsedKV
  | fuel + 1, filteredResp, parsedKV =>
    if 0 < filteredResp.length then
      match fetchStep filteredResp parsedKV with
      | .fail e => .error e
      | .panic => .panic
      | .next rest kv => fetchLoop fuel rest kv
    else .ok parsedKV

/-- The method `parseFetchResp`. The slice `resp[:filteredRespLength]` of line 155 panics
on a negative bound. Every iteration of the loop shortens the buffer, so `len(resp)`
iterations are enough. -/
def parseFetchResp (resp : GoString) : Result GoMap :=
  let respLines := Split (TrimRight resp CRLF) CRLF
  let lineCount := respLines.length
  if lineCount < 2 then
    .error (.NotValidRespError NOT_VALID_RESP_MSG)
  else
    let lastLine := respLines.getD (lineCount - 1) []
    if lastLine ≠ utf8 "END" then
      .error (.NotValidRespError NOT_VALID_RESP_MSG)
    else
      let filteredRespLength : Int := (resp.length : Int) - (utf8 "\r\nEND\r\n").length
      if filteredRespLength < 0 then .panic
      else
        let filteredResp := resp.take filteredRespLength.toNat
        fetchLoop resp.length filteredResp []

/-- The method `runFetchCmd`: what it returns and the calls of `Send` it made. -/
def runFetchCmd (conn : Connection) (cmdName keys : GoString) :
    Result GoMap × List (List GoString) :=
  let cmd := cmdName ++ utf8 " " ++ keys ++ CRLF
  match conn [cmd] with
  | .error err => (.error err, [[cmd]])
  | .ok resp =>
    match checkError resp with
    | some err => (.error err, [[cmd]])
    | none => (parseFetchResp resp, [[cmd]])

/-- The method `Get`: `resp[key]` is the empty string when the map has no entry for
`key`. -/
def Get (conn : Connection) (key : GoString) : Result GoString :=
  match (runFetchCmd conn (utf8 "get") key).1 with
  | .ok resp => .ok ((mapGet resp key).getD [])
  | .error err => .error err
  | .panic => .panic
  | .stuck => .stuck

/-- The method `Gets`. -/
def Gets (conn : Connection) (keys : List GoString) : Result GoMap :=
  match (runFetchCmd conn (utf8 "gets") (Join keys (utf8 " "))).1 with
  | .ok resp => .ok resp
  | .error err => .error err
  | .panic => .panic
  | .stuck => .stuck

/-! ## Inputs of the statements -/

/-- One entry of a fetch response: the key, the flags field and the value. -/
structure Entry where
  key : GoString
  flags : GoString
  value : GoString
  deriving DecidableEq, Repr

/-- The meta line `"VALUE <key> <flags> <bytes>"` of an entry, `<bytes>` being the decimal
rendering of the length of the value. -/
def metaLine (e : Entry) : GoString :=
  utf8 "VALUE " ++ e.key ++ utf8 " " ++ e.flags ++ utf8 " " ++ Itoa (e.value.length : Int)

/-- The block `"VALUE <key> <flags> <bytes>\r\n<value>\r\n"` of an entry. -/
def valueBlock (e : Entry) : GoString :=
  metaLine e ++ CRLF ++ e.value ++ CRLF

/-- The fetch response made of the blocks of the entries followed by `"END\r\n"`. -/
def fetchResponse (es : List Entry) : GoString :=
  (es.map valueBlock).flatten ++ utf8 "END\r\n"

/-- The body that the parser scans for a response made of the blocks of the entries: the
blocks without the `"\r\n"` that ends the last one. -/
def blocksBody : List Entry → GoString
  | [] => []
  | [e] => metaLine e ++ CRLF ++ e.value
  | e :: e' :: es => metaLine e ++ CRLF ++ e.value ++ CRLF ++ blocksBody (e' :: es)

/-- The map obtained by storing the entries in turn, as the loop of the parser does. -/
def storeAll (kv : GoMap) (es : List Entry) : GoMap :=
  es.foldl (fun m e => mapSet m e.key e.value) kv

/-- An argument bag whose entries have the types that `runStorageCmd` asserts: strings
for `key`, `value` and `cas_unique`, integers for `flags` and `expire_time`. -/
def typedArgs (key value : GoString) (flags expire_time : Option Int)
    (cas_unique : Option GoString) : storageCmdArgStruct :=
  { key := some (.str key), value := some (.str value), flags := flags.map .int,
    expire_time := expire_time.map .int, cas_unique := cas_unique.map .str }

/-- A connection that answers every request with the same response. -/
def replyWith (resp : GoString) : Connection := fun _ => .ok resp

/-- The result of a storage operation in the words of the specification: an error of
the transport is forwarded as it is; otherwise the error classifier runs first and its
error, if any, is the result; the storage-result classification applies only when the
error classifier reports nothing. -/
def storageResultSpec (reply : Except GoError GoString) : Result Unit :=
  match reply with
  | .error err => .error err
  | .ok resp =>
    match checkError resp with
    | some err => .error err
    | none =>
      match checkStorageCmdResp resp with
      | some err => .error err
      | none => .ok ()

/-! ## Theorems -/


/-! ### The literals of the source -/

theorem utf8_VALUE : utf8 "VALUE " = [86, 65, 76, 85, 69, 32] := by decide

theorem utf8_space : utf8 " " = [32] := by decide

theorem utf8_END : utf8 "END" = [69, 78, 68] := by decide

theorem utf8_END_line : utf8 "END\r\n" = [69, 78, 68, 13, 10] := by decide

theorem utf8_sentinel : utf8 "\r\nEND\r\n" = [13, 10, 69, 78, 68, 13, 10] := by decide

/-! ### `Index` and `Split` -/

/-- `Index` finds nothing exactly when the separator is not a contiguous part of the
text. -/
theorem Index_eq_none_iff (s sep : GoString) : Index s sep = none ↔ ¬ sep <:+: s := by
  induction s with
  | nil =>
    by_cases h : sep = [] <;> simp [Index, h]
  | cons c rest ih =>
    rw [Index, List.infix_cons_iff]
    by_cases h : sep.isPrefixOf (c :: rest) = true
    · have h2 : sep <+: c :: rest := List.isPrefixOf_iff_prefix.mp h
      simp [h, h2]
    · have h2 : ¬ sep <+: c :: rest := fun h3 => h (List.isPrefixOf_iff_prefix.mpr h3)
      simp [h, h2, ih]

/-- A text without the line feed does not contain `"\r\n"`. -/
theorem Index_CRLF_of_not_mem (s : GoString) (h : 10 ∉ s) : Index s CRLF = none := by
  rw [Index_eq_none_iff]
  intro hin
  exact h (hin.subset (by simp [CRLF]))

/-- Whether `"\r\n"` starts a text is read from its first two bytes. -/
theorem CRLF_isPrefixOf_cons (c : Nat) (s : GoString) :
    CRLF.isPrefixOf (c :: s) = (decide (c = 13) && decide (s.head? = some 10)) := by
  cases s with
  | nil => simp [CRLF, List.isPrefixOf]
  | cons d s =>
    simp only [CRLF, List.isPrefixOf, List.head?_cons, Option.some.injEq, Bool.and_true]
    have e1 : (13 == c) = decide (c = 13) := by
      by_cases h1 : c = 13
      · simp [h1]
      · have : ¬ 13 = c := fun h => h1 h.symm
        simp [h1, this]
    have e2 : (10 == d) = decide (d = 10) := by
      by_cases h2 : d = 10
      · simp [h2]
      · have : ¬ 10 = d := fun h => h2 h.symm
        simp [h2, this]
    rw [e1, e2]

/-- Unfolding of `Index` at the separator `"\r\n"`. -/
theorem Index_CRLF_cons (c : Nat) (s : GoString) :
    Index (c :: s) CRLF =
      if c = 13 ∧ s.head? = some 10 then some 0 else (Index s CRLF).map (· + 1) := by
  rw [Index, CRLF_isPrefixOf_cons]
  by_cases h1 : c = 13 <;> by_cases h2 : s.head? = some 10 <;> simp [h1, h2]

/-- A space between two texts keeps `"\r\n"` out when neither text contains it. -/
theorem Index_CRLF_space (x y : GoString) (hx : Index x CRLF = none)
    (hy : Index y CRLF = none) : Index (x ++ 32 :: y) CRLF = none := by
  induction x with
  | nil => simp [Index_CRLF_cons, hy]
  | cons c x ih =>
    rw [Index_CRLF_cons] at hx
    rw [List.cons_append, Index_CRLF_cons]
    split at hx
    · simp at hx
    · rename_i hpre
      simp only [Option.map_eq_none'] at hx
      rw [ih hx]
      have : ¬ (c = 13 ∧ (x ++ 32 :: y).head? = some 10) := by
        rintro ⟨h1, h2⟩
        cases x with
        | nil => simp at h2
        | cons d x => exact hpre ⟨h1, by simpa using h2⟩
      rw [if_neg this]
      rfl

/-- The first `"\r\n"` of a text that continues with `"\r\n"` after a part free of it. -/
theorem Index_CRLF_append (a b : GoString) (ha : Index a CRLF = none) :
    Index (a ++ 13 :: 10 :: b) CRLF = some a.length := by
  induction a with
  | nil => simp [Index_CRLF_cons]
  | cons c a ih =>
    rw [Index_CRLF_cons] at ha
    rw [List.cons_append, Index_CRLF_cons]
    split at ha
    · simp at ha
    · rename_i hpre
      simp only [Option.map_eq_none'] at ha
      rw [ih ha]
      have : ¬ (c = 13 ∧ (a ++ 13 :: 10 :: b).head? = some 10) := by
        rintro ⟨h1, h2⟩
        cases a with
        | nil => simp at h2
        | cons d a => exact hpre ⟨h1, by simpa using h2⟩
      rw [if_neg this]
      rfl

/-- A text without a space has no occurrence of the separator `" "`. -/
theorem Index_space_of_not_mem (a : GoString) (ha : 32 ∉ a) : Index a [32] = none := by
  rw [Index_eq_none_iff]
  intro hin
  exact ha (hin.subset (by simp))

/-- The first space of a text that has one after a part free of spaces. -/
theorem Index_space_append (a b : GoString) (ha : 32 ∉ a) :
    Index (a ++ 32 :: b) [32] = some a.length := by
  induction a with
  | nil => simp [Index, List.isPrefixOf]
  | cons c a ih =>
    have hc : c ≠ 32 := fun h => ha (by simp [h])
    have hc2 : ¬ 32 = c := fun h => hc h.symm
    have ha2 : 32 ∉ a := fun h => ha (List.mem_cons_of_mem _ h)
    rw [List.cons_append, Index, ih ha2]
    simp [List.isPrefixOf, hc2]

/-- One round of the splitting loop at a space. -/
theorem splitLoop_space_cons (fuel : Nat) (a b : GoString) (ha : 32 ∉ a) :
    splitLoop [32] (fuel + 1) (a ++ 32 :: b) = a :: splitLoop [32] fuel b := by
  rw [splitLoop, Index_space_append a b ha]
  simp

/-- The splitting loop on a text free of spaces. -/
theorem splitLoop_space_last (fuel : Nat) (a : GoString) (ha : 32 ∉ a) :
    splitLoop [32] fuel a = [a] := by
  cases fuel with
  | zero => rfl
  | succ fuel => rw [splitLoop, Index_space_of_not_mem a ha]

/-! ### `Itoa` and `Atoi` -/

/-- The digits of a number are digits. -/
theorem decimal_all_isDigit (fuel n : Nat) : ∀ c ∈ decimal fuel n, 48 ≤ c ∧ c ≤ 57 := by
  induction fuel generalizing n with
  | zero => simp [decimal]
  | succ fuel ih =>
    intro c hc
    rw [decimal] at hc
    split at hc
    · simp only [List.mem_singleton] at hc
      omega
    · rcases List.mem_append.mp hc with h | h
      · exact ih _ c h
      · simp only [List.mem_singleton] at h
        omega

/-- A number has at least one digit. -/
theorem decimal_ne_nil (fuel n : Nat) : decimal (fuel + 1) n ≠ [] := by
  rw [decimal]
  split <;> simp

/-- Reading the digits of a number gives the number back. -/
theorem digitsValue_decimal (fuel n : Nat) (h : n < fuel) :
    digitsValue (decimal fuel n) = n := by
  induction fuel generalizing n with
  | zero => omega
  | succ fuel ih =>
    rw [decimal]
    split
    · simp [digitsValue]
    · have h2 : n / 10 < fuel := by omega
      have := ih (n / 10) h2
      unfold digitsValue at this ⊢
      rw [List.foldl_append, this]
      simp only [List.foldl_cons, List.foldl_nil]
      omega

/-- `Itoa` of a natural number is its sequence of digits. -/
theorem Itoa_natCast (n : Nat) : Itoa (n : Int) = decimal (n + 1) n := by
  simp [Itoa]

/-- The decimal rendering of a natural number contains no space, no `"\r"`, no `"\n"`. -/
theorem Itoa_not_mem (n : Nat) (c : Nat) (hc : c < 48) : c ∉ Itoa (n : Int) := by
  rw [Itoa_natCast]
  intro h
  have := decimal_all_isDigit _ _ c h
  omega

/-- The digit loop on a text followed by one more digit. -/
theorem parseUintLoop_append (xs : GoString) (d acc m : Nat)
    (hxs : parseUintLoop xs acc = some (m, true)) (hd : 48 ≤ d ∧ d ≤ 57)
    (hm : m * 10 + (d - 48) < 2 ^ 64) :
    parseUintLoop (xs ++ [d]) acc = some (m * 10 + (d - 48), true) := by
  induction xs generalizing acc with
  | nil =>
    simp only [parseUintLoop, Option.some.injEq, Prod.mk.injEq, and_true] at hxs
    subst hxs
    have hdig : isDigit d = true := by simp [isDigit, hd]
    have hlt : ¬ 2 ^ 64 ≤ acc * 10 + (d - 48) := by omega
    simp only [List.nil_append, parseUintLoop, hdig, if_neg hlt]
    simp
  | cons c xs ih =>
    rw [parseUintLoop] at hxs
    rw [List.cons_append, parseUintLoop]
    split at hxs
    · cases hxs
    · rename_i hc
      rw [if_neg hc]
      split at hxs
      · simp at hxs
      · rename_i hlt
        rw [if_neg hlt]
        exact ih _ hxs

/-- The digit loop reads the digits of a number below `2^64` back to the number. -/
theorem parseUintLoop_decimal (fuel n : Nat) (h : n < fuel) (hn : n < 2 ^ 64) :
    parseUintLoop (decimal fuel n) 0 = some (n, true) := by
  induction fuel generalizing n with
  | zero => omega
  | succ fuel ih =>
    rw [decimal]
    split
    · rename_i h10
      have hdig : isDigit (48 + n) = true := by
        simp [isDigit]
        omega
      have hlt : ¬ 2 ^ 64 ≤ 0 * 10 + (48 + n - 48) := by omega
      simp only [parseUintLoop, hdig, if_neg hlt]
      simp
    · have h2 : n / 10 < fuel := by omega
      have := parseUintLoop_append (decimal fuel (n / 10)) (48 + n % 10) 0 (n / 10)
        (ih (n / 10) h2 (by omega)) (by omega) (by omega)
      rw [this]
      congr 2
      omega

/-- `Atoi` reads back the decimal rendering of a length that fits the 64-bit `int`. -/
theorem Atoi_Itoa (n : Nat) (hn : n < 2 ^ 63) : Atoi (Itoa (n : Int)) = ((n : Int), true) := by
  rw [Itoa_natCast]
  have hall := decimal_all_isDigit (n + 1) n
  have hval := parseUintLoop_decimal (n + 1) n (by omega) (by omega)
  have hne := decimal_ne_nil n n
  cases hd : decimal (n + 1) n with
  | nil => exact absurd hd hne
  | cons c rest =>
    rw [hd] at hall hval
    have hc := hall c (by simp)
    have hc2 : ¬ c = 45 := by omega
    have hc3 : ¬ c = 43 := by omega
    have hlt : ¬ (2 ^ 63 ≤ n) := by omega
    simp [Atoi, hc3, hval, hc2, hlt]
    omega

/-- `Atoi` raises the range error at the digit that overflows, before it reads the bytes
that follow; a byte that is not a digit met before any overflow is a syntax error. -/
theorem Atoi_range_before_syntax :
    Atoi (utf8 "18446744073709551616x") = (2 ^ 63 - 1, false) ∧
    Atoi (utf8 "-18446744073709551616x") = (-(2 ^ 63), false) ∧
    Atoi (utf8 "9223372036854775808x") = (0, false) ∧
    Atoi (utf8 "9223372036854775808") = (2 ^ 63 - 1, false) ∧
    Atoi (utf8 "-9223372036854775808") = (-(2 ^ 63), true) ∧
    Atoi (utf8 "+12") = (12, true) ∧ Atoi (utf8 "+") = (0, false) := by
  decide

/-! ### One iteration of the scanning loop -/

/-- A sum within the 64-bit range is not changed by the reduction. -/
theorem int64_of_lt (x : Int) (h0 : 0 ≤ x) (h1 : x < 2 ^ 63) : int64 x = x := by
  unfold int64
  omega

/-- The meta line of an entry whose key and flags are free of `"\r\n"` is free of it. -/
theorem Index_CRLF_metaLine (e : Entry) (hk : ¬ CRLF <:+: e.key) (hf : ¬ CRLF <:+: e.flags) :
    Index (metaLine e) CRLF = none := by
  have h1 : Index (Itoa (e.value.length : Int)) CRLF = none :=
    Index_CRLF_of_not_mem _ (Itoa_not_mem _ 10 (by omega))
  have h2 := Index_CRLF_space e.flags _ ((Index_eq_none_iff _ _).mpr hf) h1
  have h3 := Index_CRLF_space e.key _ ((Index_eq_none_iff _ _).mpr hk) h2
  have h4 := Index_CRLF_space [86, 65, 76, 85, 69] _ (by decide) h3
  simpa [metaLine, utf8_VALUE, utf8_space] using h4

/-- The meta line of an entry whose key and flags are free of spaces splits into its
four fields. -/
theorem Split_metaLine (e : Entry) (hk : 32 ∉ e.key) (hf : 32 ∉ e.flags) :
    Split (metaLine e) (utf8 " ") =
      [[86, 65, 76, 85, 69], e.key, e.flags, Itoa (e.value.length : Int)] := by
  have hform : metaLine e = [86, 65, 76, 85, 69] ++ 32 ::
      (e.key ++ 32 :: (e.flags ++ 32 :: Itoa (e.value.length : Int))) := by
    simp [metaLine, utf8_VALUE, utf8_space]
  obtain ⟨m, hm⟩ : ∃ m, (metaLine e).length = m + 3 := by
    refine ⟨(metaLine e).length - 3, ?_⟩
    rw [hform]
    simp only [List.length_append, List.length_cons, List.length_nil]
    omega
  rw [Split, hm, utf8_space, hform, splitLoop_space_cons _ _ _ (by decide),
    splitLoop_space_cons _ _ _ hk, splitLoop_space_cons _ _ _ hf,
    splitLoop_space_last _ _ (Itoa_not_mem _ 32 (by omega))]

/-- One iteration of the loop on a buffer that starts with the meta line of an entry, the
separator and the value: the entry is stored; the loop ends when nothing follows the
value, and otherwise the two bytes that follow are dropped, whatever they are (with a
panic when a single byte follows). -/
theorem fetchStep_block (e : Entry) (tail : GoString) (kv : GoMap)
    (hk : 32 ∉ e.key) (hk2 : ¬ CRLF <:+: e.key) (hf : 32 ∉ e.flags)
    (hf2 : ¬ CRLF <:+: e.flags)
    (hlen : (metaLine e ++ CRLF ++ e.value ++ tail).length < 2 ^ 63) :
    fetchStep (metaLine e ++ CRLF ++ e.value ++ tail) kv =
      if tail = [] then .next [] (mapSet kv e.key e.value)
      else if tail.length < 2 then .panic
      else .next (tail.drop 2) (mapSet kv e.key e.value) := by
  have hpre : HasPrefix (metaLine e ++ CRLF ++ e.value ++ tail) (utf8 "VALUE ") = true := by
    simp [HasPrefix, metaLine, utf8_VALUE, List.isPrefixOf]
  have hidx : Index (metaLine e ++ CRLF ++ e.value ++ tail) CRLF =
      some (metaLine e).length := by
    have := Index_CRLF_append (metaLine e) (e.value ++ tail) (Index_CRLF_metaLine e hk2 hf2)
    simpa [CRLF] using this
  have htake : (metaLine e ++ CRLF ++ e.value ++ tail).take (metaLine e).length =
      metaLine e := by
    simp [List.append_assoc]
  unfold fetchStep
  rw [hpre, hidx]
  simp only [htake, Split_metaLine e hk hf]
  have hat : (Atoi (Itoa (e.value.length : Int))).1 = (e.value.length : Int) := by
    rw [Atoi_Itoa]
    simp only [List.length_append] at hlen
    omega
  have hsum : int64 (((metaLine e).length : Int) + (CRLF.length : Nat) + (e.value.length : Int))
      = (((metaLine e).length + 2 + e.value.length : Nat) : Int) := by
    rw [int64_of_lt]
    · simp [CRLF]
    · positivity
    · simp only [List.length_append] at hlen
      simp only [CRLF, List.length_cons, List.length_nil] at hlen ⊢
      omega
  simp only [List.getD_cons_succ, List.getD_cons_zero, hat, hsum]
  generalize metaLine e = M at *
  have hC : CRLF.length = 2 := rfl
  have e1 : ((M.length : Int) + ((2 : Nat) : Int)).toNat = M.length + 2 := by omega
  have e2 : (((M.length + 2 + e.value.length : Nat) : Int) + ((2 : Nat) : Int)).toNat =
      M.length + 2 + e.value.length + 2 := by omega
  have hval : ((M ++ CRLF ++ e.value ++ tail).take (M.length + 2 + e.value.length)).drop
      (M.length + 2) = e.value := by
    rw [List.take_left' (by simp [CRLF]; omega), List.drop_left' (by simp [CRLF])]
  have hdrop : (M ++ CRLF ++ e.value ++ tail).drop (M.length + 2 + e.value.length + 2) =
      tail.drop 2 := by
    rw [← List.drop_drop, List.drop_left' (by simp [CRLF]; omega)]
  have hlength : (M ++ CRLF ++ e.value ++ tail).length =
      M.length + 2 + e.value.length + tail.length := by
    simp [CRLF]
    omega
  rw [hC, e1, e2, Int.toNat_natCast, hval, hdrop, hlength]
  clear hlen hidx htake hpre hsum hval hdrop hlength e1 e2
  rcases tail with _ | ⟨a, _ | ⟨b, t⟩⟩
  · simp
  · simp
  · simp only [List.length_cons, List.length_nil, List.drop_succ_cons, List.drop_zero,
      reduceCtorEq, if_false]
    split_ifs <;> first | rfl | omega

/-! ### The sentinel check -/

/-- The first `"\r\n"` of a text that holds one after the part `X` is either the one
after `X` or lies within `X`. -/
theorem Index_CRLF_exists (X b : GoString) :
    ∃ i, Index (X ++ 13 :: 10 :: b) CRLF = some i ∧ (i = X.length ∨ i + 2 ≤ X.length) := by
  induction X with
  | nil => exact ⟨0, by simp [Index_CRLF_cons], Or.inl rfl⟩
  | cons c X ih =>
    rw [List.cons_append, Index_CRLF_cons]
    by_cases hc : c = 13 ∧ (X ++ 13 :: 10 :: b).head? = some 10
    · refine ⟨0, by rw [if_pos hc], Or.inr ?_⟩
      cases X with
      | nil => simp at hc
      | cons d X => simp
    · obtain ⟨i, hi, hcase⟩ := ih
      refine ⟨i + 1, by rw [if_neg hc, hi]; rfl, ?_⟩
      simp only [List.length_cons]
      omega

/-- The splitting loop on a text without the separator. -/
theorem splitLoop_of_Index_none (sep : GoString) (fuel : Nat) (s : GoString)
    (h : Index s sep = none) : splitLoop sep fuel s = [s] := by
  cases fuel with
  | zero => rfl
  | succ fuel => rw [splitLoop, h]

/-- Splitting a text that ends with `"\r\nEND"` gives at least two lines, the last of
which is `"END"`. -/
theorem splitLoop_CRLF_END (fuel : Nat) (X : GoString) (hfuel : X.length < fuel) :
    2 ≤ (splitLoop CRLF fuel (X ++ 13 :: 10 :: [69, 78, 68])).length ∧
      (splitLoop CRLF fuel (X ++ 13 :: 10 :: [69, 78, 68])).getLast? = some [69, 78, 68] := by
  induction fuel generalizing X with
  | zero => omega
  | succ fuel ih =>
    obtain ⟨i, hi, hcase⟩ := Index_CRLF_exists X [69, 78, 68]
    rw [splitLoop, hi]
    simp only [show CRLF.length = 2 from rfl]
    rcases hcase with h | h
    · subst h
      have hd : (X ++ 13 :: 10 :: [69, 78, 68]).drop (X.length + 2) = [69, 78, 68] := by
        simp
      rw [hd, splitLoop_of_Index_none _ _ _ (by decide)]
      simp
    · have hd : (X ++ 13 :: 10 :: [69, 78, 68]).drop (i + 2) =
          X.drop (i + 2) ++ 13 :: 10 :: [69, 78, 68] :=
        List.drop_append_of_le_length h
      rw [hd]
      have hlen : (X.drop (i + 2)).length < fuel := by
        rw [List.length_drop]
        omega
      obtain ⟨h1, h2⟩ := ih (X.drop (i + 2)) hlen
      constructor
      · simp only [List.length_cons]
        omega
      · cases hr : splitLoop CRLF fuel (X.drop (i + 2) ++ 13 :: 10 :: [69, 78, 68]) with
        | nil => rw [hr] at h1; simp at h1
        | cons p r =>
          rw [hr] at h2
          rw [List.getLast?_cons_cons]
          exact h2

/-- Trimming the trailing `"\r"` and `"\n"` of a text that ends with `"END\r\n"` removes
the last two bytes. -/
theorem TrimRight_END (X : GoString) :
    TrimRight (X ++ [13, 10, 69, 78, 68, 13, 10]) CRLF = X ++ [13, 10, 69, 78, 68] := by
  simp [TrimRight, CRLF, List.dropWhile]

/-- On a response that ends with `"\r\nEND\r\n"` the parser passes the two checks of the
last line and scans what precedes these seven bytes. -/
theorem parseFetchResp_sentinel (X : GoString) :
    parseFetchResp (X ++ utf8 "\r\nEND\r\n") = fetchLoop (X.length + 7) X [] := by
  obtain ⟨h1, h2⟩ := splitLoop_CRLF_END (X ++ [13, 10, 69, 78, 68]).length X (by simp)
  have hlast : (splitLoop CRLF (X ++ [13, 10, 69, 78, 68]).length
      (X ++ [13, 10, 69, 78, 68])).getD
        ((splitLoop CRLF (X ++ [13, 10, 69, 78, 68]).length
          (X ++ [13, 10, 69, 78, 68])).length - 1) [] = [69, 78, 68] := by
    rw [List.getD_eq_getElem?_getD, ← List.getLast?_eq_getElem?, h2]
    rfl
  have hnot : ¬ (splitLoop CRLF (X ++ [13, 10, 69, 78, 68]).length
      (X ++ [13, 10, 69, 78, 68])).length < 2 := by omega
  have htake : (X ++ [13, 10, 69, 78, 68, 13, 10]).take X.length = X := by simp
  have hlen : (X ++ [13, 10, 69, 78, 68, 13, 10]).length = X.length + 7 := by simp
  unfold parseFetchResp
  simp only [utf8_sentinel, TrimRight_END, Split, hlast, hnot, utf8_END, if_false,
    ne_eq, not_true_eq_false, hlen]
  have e1 : ¬ (((X.length + 7 : Nat) : Int) - (([13, 10, 69, 78, 68, 13, 10] : GoString).length : Int) < 0) := by
    simp
  have e2 : (((X.length + 7 : Nat) : Int) - (([13, 10, 69, 78, 68, 13, 10] : GoString).length : Int)).toNat
      = X.length := by
    simp
  rw [if_neg e1, e2, htake]

/-! ### The scanning loop on the blocks of a response -/

/-- The loop returns the map when the buffer is empty. -/
theorem fetchLoop_nil (fuel : Nat) (kv : GoMap) : fetchLoop fuel [] kv = .ok kv := by
  cases fuel <;> simp [fetchLoop]

/-- The meta line of an entry is not empty. -/
theorem metaLine_length_pos (e : Entry) : 0 < (metaLine e).length := by
  simp [metaLine, utf8_VALUE]

/-- The response of a non-empty list of entries is the scanned body followed by the seven
bytes `"\r\nEND\r\n"`. -/
theorem fetchResponse_eq (es : List Entry) (hne : es ≠ []) :
    fetchResponse es = blocksBody es ++ utf8 "\r\nEND\r\n" := by
  have h : ∀ (e : Entry) (rest : List Entry),
      ((e :: rest).map valueBlock).flatten = blocksBody (e :: rest) ++ CRLF := by
    intro e rest
    induction rest generalizing e with
    | nil => simp [valueBlock, blocksBody]
    | cons e' rest ih =>
      rw [List.map_cons, List.flatten_cons, ih e']
      simp [valueBlock, blocksBody]
  cases es with
  | nil => exact absurd rfl hne
  | cons e rest =>
    rw [fetchResponse, h e rest, utf8_END_line, utf8_sentinel]
    simp [CRLF]

/-- There are at most as many blocks as bytes in the body. -/
theorem length_le_blocksBody (es : List Entry) : es.length ≤ (blocksBody es).length := by
  induction es with
  | nil => simp
  | cons e rest ih =>
    cases rest with
    | nil =>
      have := metaLine_length_pos e
      simp [blocksBody]
      omega
    | cons e' rest =>
      have := metaLine_length_pos e
      simp only [blocksBody, List.length_append, List.length_cons] at ih ⊢
      omega

/-- The loop of the parser on the body made of the blocks of the entries stores every
entry in turn and returns the map. -/
theorem fetchLoop_blocksBody (es : List Entry) (hne : es ≠ [])
    (hkey : ∀ e ∈ es, 32 ∉ e.key ∧ ¬ CRLF <:+: e.key)
    (hflags : ∀ e ∈ es, 32 ∉ e.flags ∧ ¬ CRLF <:+: e.flags)
    (hlen : (blocksBody es).length < 2 ^ 63) (fuel : Nat) (hfuel : es.length ≤ fuel)
    (kv : GoMap) :
    fetchLoop fuel (blocksBody es) kv = .ok (storeAll kv es) := by
  induction es generalizing fuel kv with
  | nil => exact absurd rfl hne
  | cons e rest ih =>
    obtain ⟨hk, hk2⟩ := hkey e (by simp)
    obtain ⟨hf, hf2⟩ := hflags e (by simp)
    have hpos := metaLine_length_pos e
    cases fuel with
    | zero => simp at hfuel
    | succ fuel =>
      cases rest with
      | nil =>
        have hstep := fetchStep_block e [] kv hk hk2 hf hf2 (by simpa [blocksBody] using hlen)
        simp only [List.append_nil, if_true] at hstep
        have hlenpos : 0 < (blocksBody [e]).length := by
          simp [blocksBody]
          omega
        rw [fetchLoop, if_pos hlenpos]
        simp only [blocksBody, hstep, fetchLoop_nil]
        rfl
      | cons e' rest =>
        have hbody : blocksBody (e :: e' :: rest) =
            metaLine e ++ CRLF ++ e.value ++ (CRLF ++ blocksBody (e' :: rest)) := by
          simp [blocksBody]
        have hstep := fetchStep_block e (CRLF ++ blocksBody (e' :: rest)) kv hk hk2 hf hf2
          (by rw [← hbody]; exact hlen)
        have hne2 : CRLF ++ blocksBody (e' :: rest) ≠ [] := by simp [CRLF]
        have hlen2 : ¬ (CRLF ++ blocksBody (e' :: rest)).length < 2 := by simp [CRLF]
        rw [if_neg hne2, if_neg hlen2] at hstep
        have hdrop : (CRLF ++ blocksBody (e' :: rest)).drop 2 = blocksBody (e' :: rest) := by
          simp [CRLF]
        rw [hdrop] at hstep
        have hlenpos : 0 < (blocksBody (e :: e' :: rest)).length := by
          rw [hbody]
          simp
          omega
        rw [fetchLoop, if_pos hlenpos, hbody, hstep]
        simp only
        rw [ih (by simp) (fun x hx => hkey x (List.mem_cons_of_mem _ hx))
          (fun x hx => hflags x (List.mem_cons_of_mem _ hx))
          (by rw [hbody] at hlen; simp only [List.length_append] at hlen; omega)
          fuel (by simpa using hfuel)]
        rfl

/-! ### The map built by the loop -/

/-- Reading a map after a write. -/
theorem mapGet_mapSet (m : GoMap) (k v k' : GoString) :
    mapGet (mapSet m k v) k' = if k = k' then some v else mapGet m k' := by
  induction m with
  | nil => simp [mapSet, mapGet]
  | cons p m ih =>
    obtain ⟨a, b⟩ := p
    by_cases hak : a = k
    · subst hak
      by_cases hk : a = k' <;> simp [mapSet, mapGet, hk]
    · by_cases hk : k = k'
      · subst hk
        simp [mapSet, mapGet, hak, ih]
      · by_cases hak' : a = k'
        · subst hak'
          simp [mapSet, mapGet, hak, hk]
        · simp [mapSet, mapGet, hak, hak', hk, ih]

/-- Storing entries none of which has the key `k` does not change the map at `k`. -/
theorem mapGet_storeAll_of_not_mem (es : List Entry) (kv : GoMap) (k : GoString)
    (h : k ∉ es.map Entry.key) : mapGet (storeAll kv es) k = mapGet kv k := by
  induction es generalizing kv with
  | nil => rfl
  | cons e rest ih =>
    simp only [List.map_cons, List.mem_cons, not_or] at h
    have hstep : storeAll kv (e :: rest) = storeAll (mapSet kv e.key e.value) rest := rfl
    rw [hstep, ih _ h.2, mapGet_mapSet, if_neg (fun heq => h.1 heq.symm)]

/-- After storing entries with pairwise distinct keys, the map holds at the key of each
entry the value of that entry. -/
theorem mapGet_storeAll_of_mem (es : List Entry) (kv : GoMap)
    (hnodup : (es.map Entry.key).Nodup) (e : Entry) (he : e ∈ es) :
    mapGet (storeAll kv es) e.key = some e.value := by
  induction es generalizing kv with
  | nil => simp at he
  | cons x rest ih =>
    rw [List.map_cons, List.nodup_cons] at hnodup
    have hstep : storeAll kv (x :: rest) = storeAll (mapSet kv x.key x.value) rest := rfl
    rcases List.mem_cons.mp he with h | h
    · subst h
      rw [hstep, mapGet_storeAll_of_not_mem _ _ _ hnodup.1, mapGet_mapSet, if_pos rfl]
    · rw [hstep]
      exact ih _ hnodup.2 h

/-- C1: for every non-empty list of entries with pairwise distinct keys, whose keys and
flags contain neither a space nor `"\r\n"` and whose values are arbitrary bytes (the
response fitting the 64-bit `int`, as every Go slice does), `parseFetchResp` applied to
the blocks `"VALUE <key> <flags> <len(value)>\r\n<value>\r\n"` followed by `"END\r\n"`
returns no error and a map that holds at each key exactly the value of its entry and
holds no other key. -/
theorem parseFetchResp_round_trip (es : List Entry) (hne : es ≠ [])
    (hnodup : (es.map Entry.key).Nodup)
    (hkey : ∀ e ∈ es, 32 ∉ e.key ∧ ¬ CRLF <:+: e.key)
    (hflags : ∀ e ∈ es, 32 ∉ e.flags ∧ ¬ CRLF <:+: e.flags)
    (hlen : (fetchResponse es).length < 2 ^ 63) :
    ∃ m : GoMap, parseFetchResp (fetchResponse es) = .ok m ∧
      (∀ e ∈ es, mapGet m e.key = some e.value) ∧
      (∀ k, k ∉ es.map Entry.key → mapGet m k = none) := by
  refine ⟨storeAll [] es, ?_, ?_, ?_⟩
  · rw [fetchResponse_eq es hne] at hlen ⊢
    rw [parseFetchResp_sentinel]
    apply fetchLoop_blocksBody es hne hkey hflags
    · simp only [List.length_append] at hlen
      omega
    · have := length_le_blocksBody es
      omega
  · intro e he
    exact mapGet_storeAll_of_mem es [] hnodup e he
  · intro k hk
    rw [mapGet_storeAll_of_not_mem es [] k hk]
    rfl

/-- C1, on the response `"VALUE a 0 3\r\nfoo\r\nVALUE b 0 0\r\n\r\nEND\r\n"`: the map
holds `"foo"` at `a` and the empty value at `b`, and nothing else. -/
theorem parseFetchResp_round_trip_witness :
    fetchResponse [⟨utf8 "a", utf8 "0", utf8 "foo"⟩, ⟨utf8 "b", utf8 "0", []⟩] =
        utf8 "VALUE a 0 3\r\nfoo\r\nVALUE b 0 0\r\n\r\nEND\r\n" ∧
    ∃ m : GoMap,
      parseFetchResp
          (fetchResponse [⟨utf8 "a", utf8 "0", utf8 "foo"⟩, ⟨utf8 "b", utf8 "0", []⟩]) =
        .ok m ∧
      (∀ e ∈ [(⟨utf8 "a", utf8 "0", utf8 "foo"⟩ : Entry), ⟨utf8 "b", utf8 "0", []⟩],
        mapGet m e.key = some e.value) ∧
      (∀ k, k ∉ [(⟨utf8 "a", utf8 "0", utf8 "foo"⟩ : Entry), ⟨utf8 "b", utf8 "0", []⟩].map
        Entry.key → mapGet m k = none) :=
  ⟨by decide,
    parseFetchResp_round_trip [⟨utf8 "a", utf8 "0", utf8 "foo"⟩, ⟨utf8 "b", utf8 "0", []⟩]
      (by decide) (by decide) (by decide) (by decide) (by decide)⟩

/-! ### The parser and the classifier on particular responses -/


/-- C2 (as stated, refuted): on the response `"END\r\n"` the parser does not return the
empty result. -/
theorem parseFetchResp_END_not_empty : parseFetchResp (utf8 "END\r\n") ≠ .ok [] := by
  decide

/-- C2 (amended): on the response `"END\r\n"` the parser returns the error
`NotValidRespError`, the text having fewer than two lines; the empty result with no
error is what it returns on `"\r\nEND\r\n"`. -/
theorem parseFetchResp_END :
    parseFetchResp (utf8 "END\r\n") = .error (.NotValidRespError NOT_VALID_RESP_MSG) ∧
      parseFetchResp (utf8 "\r\nEND\r\n") = .ok [] := by
  decide

/-- C3 (as stated, refuted): with the reply `"END\r\n"` to `"get k\r\n"`, `Get` does not
return without an error. -/
theorem Get_absent_key_counterexample :
    ¬ ∀ (conn : Connection) (key : GoString),
        conn [utf8 "get " ++ key ++ CRLF] = .ok (utf8 "END\r\n") →
        ∃ value, Get conn key = .ok value := by
  intro h
  obtain ⟨value, hv⟩ := h (replyWith (utf8 "END\r\n")) (utf8 "k") rfl
  have hg : Get (replyWith (utf8 "END\r\n")) (utf8 "k") =
      .error (.NotValidRespError NOT_VALID_RESP_MSG) := by decide
  rw [hg] at hv
  cases hv

/-- C3 (amended): for every key, when the reply to `"get <key>\r\n"` is `"END\r\n"`,
`Get` returns the error `NotValidRespError` of the parser. -/
theorem Get_absent_key (conn : Connection) (key : GoString)
    (hreply : conn [utf8 "get " ++ key ++ CRLF] = .ok (utf8 "END\r\n")) :
    Get conn key = .error (.NotValidRespError NOT_VALID_RESP_MSG) := by
  have hcmd : utf8 "get" ++ utf8 " " ++ key ++ CRLF = utf8 "get " ++ key ++ CRLF := by
    simp [show utf8 "get" = [103, 101, 116] from rfl, show utf8 " " = [32] from rfl,
      show utf8 "get " = [103, 101, 116, 32] from rfl]
  have hce : checkError (utf8 "END\r\n") = none := by decide
  have hp : parseFetchResp (utf8 "END\r\n") = .error (.NotValidRespError NOT_VALID_RESP_MSG) := by
    decide
  simp only [Get, runFetchCmd, hcmd, hreply, hce, hp]

/-- C3 (amended), at the key `"k"`. -/
theorem Get_absent_key_witness :
    Get (replyWith (utf8 "END\r\n")) (utf8 "k") =
      .error (.NotValidRespError NOT_VALID_RESP_MSG) :=
  Get_absent_key (replyWith (utf8 "END\r\n")) (utf8 "k") rfl

/-- C4 (failing input): a well-formed fetch response whose value holds the text
`"CLIENT_ERROR x\r\n"` is neither `"ERROR\r\n"` nor begins with an error prefix, the
parser reads it, and yet `checkError` reports an error, which `runFetchCmd` returns
instead of the parsed entries. -/
theorem checkError_on_value_holding_error_text :
    utf8 "VALUE a 0 16\r\nCLIENT_ERROR x\r\n\r\nEND\r\n" ≠ utf8 "ERROR\r\n" ∧
    HasPrefix (utf8 "VALUE a 0 16\r\nCLIENT_ERROR x\r\n\r\nEND\r\n")
      (utf8 "CLIENT_ERROR ") = false ∧
    HasPrefix (utf8 "VALUE a 0 16\r\nCLIENT_ERROR x\r\n\r\nEND\r\n")
      (utf8 "SERVER_ERROR ") = false ∧
    parseFetchResp (utf8 "VALUE a 0 16\r\nCLIENT_ERROR x\r\n\r\nEND\r\n") =
      .ok [(utf8 "a", utf8 "CLIENT_ERROR x\r\n")] ∧
    checkError (utf8 "VALUE a 0 16\r\nCLIENT_ERROR x\r\n\r\nEND\r\n") =
      some (.errorsNew (utf8 "发生错误：VALUE a 0 16\r\nCLIENT_ERROR x\r\n\r\nEND")) ∧
    (runFetchCmd (replyWith (utf8 "VALUE a 0 16\r\nCLIENT_ERROR x\r\n\r\nEND\r\n"))
        (utf8 "get") (utf8 "a")).1 =
      .error (.errorsNew (utf8 "发生错误：VALUE a 0 16\r\nCLIENT_ERROR x\r\n\r\nEND")) := by
  decide

/-- C5 (failing input): the text `"VALUE a 0 1\r\nfoo\r\nEND"` does not end with the
sentinel `"END\r\n"`, and the parser returns an entry and no error (the last seven bytes
are cut all the same); on `"\r\nEND"` it panics. -/
theorem parseFetchResp_without_sentinel :
    (utf8 "END\r\n").isSuffixOf (utf8 "VALUE a 0 1\r\nfoo\r\nEND") = false ∧
    parseFetchResp (utf8 "VALUE a 0 1\r\nfoo\r\nEND") = .ok [(utf8 "a", utf8 "f")] ∧
    (utf8 "END\r\n").isSuffixOf (utf8 "\r\nEND") = false ∧
    parseFetchResp (utf8 "\r\nEND") = .panic := by
  decide

/-! ### The request of a storage command -/

/-- The request recorded by `runStorageCmd` is the one built by `storageRequest`. -/
theorem runStorageCmd_sent (conn : Connection) (cmdName : GoString)
    (args : storageCmdArgStruct) (request : List GoString)
    (h : storageRequest cmdName args = .ok request) :
    (runStorageCmd conn cmdName args).2 = [request] := by
  unfold runStorageCmd
  rw [h]
  dsimp only
  cases conn request with
  | error err => rfl
  | ok resp =>
    dsimp only
    cases checkError resp with
    | some err => rfl
    | none =>
      dsimp only
      cases checkStorageCmdResp resp <;> rfl

/-- Nothing is recorded when `storageRequest` does not return a request. -/
theorem runStorageCmd_not_sent (conn : Connection) (cmdName : GoString)
    (args : storageCmdArgStruct) (h : ∀ request, storageRequest cmdName args ≠ .ok request) :
    (runStorageCmd conn cmdName args).2 = [] := by
  unfold runStorageCmd
  cases hr : storageRequest cmdName args with
  | ok request => exact absurd hr (h request)
  | error e => rfl
  | panic => rfl
  | stuck => rfl

/-- The text of an optional integer field for well-typed arguments. -/
theorem flagsText_typed (flags : Option Int) :
    flagsText (flags.map .int) = .ok (flags.elim (Itoa SET_FLAGS) stringOfInt) := by
  cases flags <;> rfl

/-- The text of the `expire_time` field for well-typed arguments. -/
theorem expTimeText_typed (e : Option Int) :
    expTimeText (e.map .int) = .ok (e.elim (utf8 "0") stringOfInt) := by
  cases e <;> rfl

/-- The cas token appended for well-typed arguments. -/
theorem casText_typed (cmdName : GoString) (cas : Option GoString) :
    casText cmdName (cas.map .str) =
      .ok (if cmdName = utf8 "cas" then cas.toList else []) := by
  unfold casText
  split
  · cases cas <;> rfl
  · rfl

/-- The request built from well-typed arguments. -/
theorem storageRequest_typed (cmdName key value : GoString) (flags e : Option Int)
    (cas : Option GoString) :
    storageRequest cmdName (typedArgs key value flags e cas) =
      .ok [cmdName ++ utf8 " " ++
            Join ([key, flags.elim (Itoa SET_FLAGS) stringOfInt, e.elim (utf8 "0") stringOfInt,
              Itoa (value.length : Int)] ++ (if cmdName = utf8 "cas" then cas.toList else []))
              (utf8 " ") ++ CRLF,
          value ++ CRLF] := by
  simp only [storageRequest, storageArgList, typedArgs, flagsText_typed, expTimeText_typed,
    casText_typed]

/-- C6: for every command name, key and value (and every well-typed choice of the
optional arguments), `runStorageCmd` sends the command line made of the command name and
a list `argList` of fields whose fourth field is the decimal rendering of the number of
bytes of `value`, whatever the bytes are. -/
theorem byte_length_field (conn : Connection) (cmdName key value : GoString)
    (flags expire_time : Option Int) (cas_unique : Option GoString) :
    ∃ argList : List GoString,
      storageArgList cmdName (typedArgs key value flags expire_time cas_unique) = .ok argList ∧
      argList.get? 3 = some (Itoa (value.length : Int)) ∧
      (runStorageCmd conn cmdName (typedArgs key value flags expire_time cas_unique)).2 =
        [[cmdName ++ utf8 " " ++ Join argList (utf8 " ") ++ CRLF, value ++ CRLF]] := by
  refine ⟨[key, flags.elim (Itoa SET_FLAGS) stringOfInt,
    expire_time.elim (utf8 "0") stringOfInt, Itoa (value.length : Int)] ++
    (if cmdName = utf8 "cas" then cas_unique.toList else []), ?_, ?_, ?_⟩
  · simp only [storageArgList, typedArgs, flagsText_typed, expTimeText_typed, casText_typed]
  · rfl
  · exact runStorageCmd_sent conn cmdName _ _ (storageRequest_typed ..)

/-- C7 (failing input): `set` with key `"k"`, value `"v"`, flags 0 and expire_time 60
sends the command line `"set k \x00 < 1\r\n"`, whose flags and expire_time fields are
the characters of code 0 and 60, and not `"set k 0 60 1\r\n"`. -/
theorem flags_and_expire_time_fields :
    (runStorageCmd (replyWith (utf8 "STORED\r\n")) (utf8 "set")
        (typedArgs (utf8 "k") (utf8 "v") (some 0) (some 60) none)).2 =
      [[utf8 "set k \x00 < 1\r\n", utf8 "v\r\n"]] ∧
    utf8 "set k \x00 < 1\r\n" ≠ utf8 "set k 0 60 1\r\n" ∧
    stringOfInt 0 ≠ Itoa 0 ∧ stringOfInt 60 ≠ Itoa 60 := by
  decide

/-- C8: for every command name, key and value, when flags, expire_time and cas_unique are
absent, `runStorageCmd` calls `Send` once, with the command line
`"<name> <key> 123456 0 <len(value)>\r\n"` and the payload line `"<value>\r\n"`; `set`
with key `"k"` and value `"v"` gives `"set k 123456 0 1\r\n"` and `"v\r\n"`. -/
theorem default_command_line (conn : Connection) (cmdName key value : GoString) :
    (runStorageCmd conn cmdName
        { key := some (.str key), value := some (.str value), flags := none,
          expire_time := none, cas_unique := none }).2 =
      [[cmdName ++ utf8 " " ++ key ++ utf8 " 123456 0 " ++ Itoa (value.length : Int) ++ CRLF,
        value ++ CRLF]] ∧
    (runStorageCmd conn (utf8 "set")
        { key := some (.str (utf8 "k")), value := some (.str (utf8 "v")), flags := none,
          expire_time := none, cas_unique := none }).2 =
      [[utf8 "set k 123456 0 1\r\n", utf8 "v\r\n"]] := by
  have h : ∀ name k v : GoString,
      (runStorageCmd conn name
        { key := some (.str k), value := some (.str v), flags := none,
          expire_time := none, cas_unique := none }).2 =
      [[name ++ utf8 " " ++ k ++ utf8 " 123456 0 " ++ Itoa (v.length : Int) ++ CRLF,
        v ++ CRLF]] := by
    intro name k v
    have hreq := storageRequest_typed name k v none none none
    rw [show typedArgs k v none none none =
      { key := some (.str k), value := some (.str v), flags := none,
        expire_time := none, cas_unique := none } from rfl] at hreq
    rw [runStorageCmd_sent conn name _ _ hreq]
    have h1 : Itoa SET_FLAGS = [49, 50, 51, 52, 53, 54] := by decide
    have h2 : utf8 " 123456 0 " = [32, 49, 50, 51, 52, 53, 54, 32, 48, 32] := by decide
    have h3 : utf8 " " = [32] := by decide
    have h4 : utf8 "0" = [48] := by decide
    simp [Join, h1, h2, h3, h4, Option.elim]
  refine ⟨h cmdName key value, ?_⟩
  rw [h]
  decide

/-- The token argument is not read when the command is not `cas`. -/
theorem storageRequest_ignores_cas (cmdName : GoString) (args : storageCmdArgStruct)
    (c : Option GoValue) (hname : cmdName ≠ utf8 "cas") :
    storageRequest cmdName { args with cas_unique := c } = storageRequest cmdName args := by
  simp only [storageRequest, storageArgList, casText, if_neg hname]

/-- C9: for a command name other than `"cas"`, `runStorageCmd` does the same (same calls
of `Send`, same command line, same result) whatever the entry `cas_unique` of the
arguments is, present or not; and for `"cas"` with the token `u` supplied, the command
line is the five-field line, followed by a space and `u`, followed by `"\r\n"`. -/
theorem cas_token_only_for_cas (conn : Connection) (cmdName : GoString)
    (args : storageCmdArgStruct) (c : Option GoValue) (key value u : GoString)
    (flags expire_time : Option Int) (hname : cmdName ≠ utf8 "cas") :
    runStorageCmd conn cmdName { args with cas_unique := c } =
        runStorageCmd conn cmdName { args with cas_unique := none } ∧
    ∃ line : GoString,
      line = utf8 "cas" ++ utf8 " " ++
        Join [key, flags.elim (Itoa SET_FLAGS) stringOfInt,
          expire_time.elim (utf8 "0") stringOfInt, Itoa (value.length : Int)] (utf8 " ") ∧
      (runStorageCmd conn (utf8 "cas") (typedArgs key value flags expire_time none)).2 =
        [[line ++ CRLF, value ++ CRLF]] ∧
      (runStorageCmd conn (utf8 "cas") (typedArgs key value flags expire_time (some u))).2 =
        [[line ++ utf8 " " ++ u ++ CRLF, value ++ CRLF]] := by
  constructor
  · unfold runStorageCmd
    rw [storageRequest_ignores_cas cmdName args c hname,
      storageRequest_ignores_cas cmdName args none hname]
  · refine ⟨_, rfl, ?_, ?_⟩
    · rw [runStorageCmd_sent conn _ _ _ (storageRequest_typed ..)]
      simp
    · rw [runStorageCmd_sent conn _ _ _ (storageRequest_typed ..)]
      simp [Join]

/-- C9, for the command `set` and the token `"7"`. -/
theorem cas_token_only_for_cas_witness :
    runStorageCmd (replyWith (utf8 "STORED\r\n")) (utf8 "set")
        { typedArgs (utf8 "k") (utf8 "v") none none none with
          cas_unique := some (.str (utf8 "7")) } =
      runStorageCmd (replyWith (utf8 "STORED\r\n")) (utf8 "set")
        { typedArgs (utf8 "k") (utf8 "v") none none none with cas_unique := none } ∧
    ∃ line : GoString,
      line = utf8 "cas" ++ utf8 " " ++
        Join [utf8 "k", (none : Option Int).elim (Itoa SET_FLAGS) stringOfInt,
          (none : Option Int).elim (utf8 "0") stringOfInt,
          Itoa ((utf8 "v").length : Int)] (utf8 " ") ∧
      (runStorageCmd (replyWith (utf8 "STORED\r\n")) (utf8 "cas")
          (typedArgs (utf8 "k") (utf8 "v") none none none)).2 =
        [[line ++ CRLF, utf8 "v" ++ CRLF]] ∧
      (runStorageCmd (replyWith (utf8 "STORED\r\n")) (utf8 "cas")
          (typedArgs (utf8 "k") (utf8 "v") none none (some (utf8 "7")))).2 =
        [[line ++ utf8 " " ++ utf8 "7" ++ CRLF, utf8 "v" ++ CRLF]] :=
  cas_token_only_for_cas (replyWith (utf8 "STORED\r\n")) (utf8 "set")
    (typedArgs (utf8 "k") (utf8 "v") none none none) (some (.str (utf8 "7")))
    (utf8 "k") (utf8 "v") (utf8 "7") none none (by decide)

/-- C10 (as stated, refuted): an argument bag that lacks `value` and whose `key` is not
a string makes `runStorageCmd` panic at the type assertion of `key`, not return an
error. -/
theorem missing_argument_counterexample :
    ¬ ∀ (conn : Connection) (cmdName : GoString) (args : storageCmdArgStruct),
        args.key = none ∨ args.value = none →
        (∃ msg, (runStorageCmd conn cmdName args).1 = .error (.errorsNew msg)) ∧
          (runStorageCmd conn cmdName args).2 = [] := by
  intro h
  obtain ⟨⟨msg, hmsg⟩, -⟩ := h (replyWith (utf8 "STORED\r\n")) (utf8 "set")
    { key := some (.int 5), value := none, flags := none, expire_time := none,
      cas_unique := none } (Or.inr rfl)
  have hp : (runStorageCmd (replyWith (utf8 "STORED\r\n")) (utf8 "set")
    { key := some (.int 5), value := none, flags := none, expire_time := none,
      cas_unique := none }).1 = .panic := by decide
  rw [hp] at hmsg
  cases hmsg

/-- C10 (amended): for every command name and every argument bag that lacks `key` or
lacks `value`, `Send` is never called; `runStorageCmd` returns the missing-argument error
of `key` when `key` is absent, the missing-argument error of `value` when `key` is a
string and `value` is absent, and it panics at the type assertion of `key` when `key` is
present and is not a string. -/
theorem missing_argument (conn : Connection) (cmdName : GoString)
    (args : storageCmdArgStruct) (hmiss : args.key = none ∨ args.value = none) :
    runStorageCmd conn cmdName args =
      (match args.key with
        | none => .error (.errorsNew (utf8 "缺少参数key"))
        | some (.str _) => .error (.errorsNew (utf8 "缺少参数value"))
        | some (.int _) => .panic
        | some .other => .panic,
       []) := by
  obtain ⟨k, v, f, e, c⟩ := args
  rcases k with _ | k | k | k
  · rfl
  · rcases hmiss with h | h
    · simp at h
    · simp only at h
      subst h
      rfl
  · rfl
  · rfl

/-- C10 (amended), for `set` with the key `"k"` and no value. -/
theorem missing_argument_witness :
    runStorageCmd (replyWith (utf8 "STORED\r\n")) (utf8 "set")
        { key := some (.str (utf8 "k")), value := none, flags := none, expire_time := none,
          cas_unique := none } =
      (.error (.errorsNew (utf8 "缺少参数value")), []) :=
  missing_argument (replyWith (utf8 "STORED\r\n")) (utf8 "set")
    { key := some (.str (utf8 "k")), value := none, flags := none, expire_time := none,
      cas_unique := none } (Or.inr rfl)

/-! ### The classification of a storage reply -/

/-- In a table without repeated keys, the search for the key of an entry of the table
finds that entry. -/
theorem find?_of_mem_table (table : List (GoString × Option GoError))
    (hnd : (table.map Prod.fst).Nodup) (kv : GoString × Option GoError) (hmem : kv ∈ table) :
    table.find? (fun p => decide (kv.1 = p.1)) = some kv := by
  induction table with
  | nil => simp at hmem
  | cons p t ih =>
    rw [List.map_cons, List.nodup_cons] at hnd
    rcases List.mem_cons.mp hmem with h | h
    · subst h
      simp
    · have hne : ¬ kv.1 = p.1 := by
        intro heq
        exact hnd.1 (heq ▸ List.mem_map_of_mem Prod.fst h)
      rw [List.find?_cons_of_neg _ (by simpa using hne)]
      exact ih hnd.2 h

/-- The loop over the table gives the same answer for every iteration order. -/
theorem rangeERRORS_perm (table : List (GoString × Option GoError))
    (hperm : table.Perm ERRORS) (resp : GoString) :
    rangeERRORS table resp = rangeERRORS ERRORS resp := by
  have hnd : (ERRORS.map Prod.fst).Nodup := by decide
  have hnd2 : (table.map Prod.fst).Nodup := (hperm.map Prod.fst).nodup_iff.mpr hnd
  by_cases hex : ∃ kv ∈ ERRORS, kv.1 = resp
  · obtain ⟨kv, hkv, rfl⟩ := hex
    unfold rangeERRORS
    rw [find?_of_mem_table ERRORS hnd kv hkv,
      find?_of_mem_table table hnd2 kv (hperm.mem_iff.mpr hkv)]
  · have h1 : ERRORS.find? (fun p => decide (resp = p.1)) = none := by
      rw [List.find?_eq_none]
      intro p hp hdec
      exact hex ⟨p, hp, (of_decide_eq_true hdec).symm⟩
    have h2 : table.find? (fun p => decide (resp = p.1)) = none := by
      rw [List.find?_eq_none]
      intro p hp hdec
      exact hex ⟨p, hperm.mem_iff.mp hp, (of_decide_eq_true hdec).symm⟩
    unfold rangeERRORS
    rw [h1, h2]

/-- C11: `checkStorageCmdResp` is the exact-match table, whatever the order in which the
loop visits the entries of `ERRORS`: it returns nil exactly on `"STORED\r\n"`, the
`NotStoredError` exactly on `"NOT_STORED\r\n"`, the `ExistsError` exactly on
`"EXISTS\r\n"`, the `NotFoundError` exactly on `"NOT_FOUND\r\n"`, and on any other text
the unknown-response error whose message ends with the text itself. -/
theorem checkStorageCmdResp_table (table : List (GoString × Option GoError))
    (hperm : table.Perm ERRORS) (raw : GoString) :
    rangeERRORS table raw = checkStorageCmdResp raw ∧
    (checkStorageCmdResp raw = none ↔ raw = utf8 "STORED\r\n") ∧
    (checkStorageCmdResp raw = some (.NotStoredError (utf8 "未能存储数据")) ↔
      raw = utf8 "NOT_STORED\r\n") ∧
    (checkStorageCmdResp raw = some (.ExistsError (utf8 "数据已存在/已被别人修改")) ↔
      raw = utf8 "EXISTS\r\n") ∧
    (checkStorageCmdResp raw = some (.NotFoundError (utf8 "未找到对应的数据")) ↔
      raw = utf8 "NOT_FOUND\r\n") ∧
    (raw ≠ utf8 "STORED\r\n" → raw ≠ utf8 "NOT_STORED\r\n" → raw ≠ utf8 "EXISTS\r\n" →
      raw ≠ utf8 "NOT_FOUND\r\n" →
      checkStorageCmdResp raw = some (.errorsNew (utf8 "未知错误：" ++ raw))) := by
  refine ⟨rangeERRORS_perm table hperm raw, ?_⟩
  by_cases h1 : raw = utf8 "STORED\r\n"
  · subst h1
    decide
  by_cases h2 : raw = utf8 "NOT_STORED\r\n"
  · subst h2
    decide
  by_cases h3 : raw = utf8 "EXISTS\r\n"
  · subst h3
    decide
  by_cases h4 : raw = utf8 "NOT_FOUND\r\n"
  · subst h4
    decide
  have hother : checkStorageCmdResp raw = some (.errorsNew (utf8 "未知错误：" ++ raw)) := by
    simp [checkStorageCmdResp, rangeERRORS, ERRORS, List.find?, h1, h2, h3, h4]
  rw [hother]
  simp [h1, h2, h3, h4]

/-- C11, for the table in the reverse order and the reply `"EXISTS\r\n"`. -/
theorem checkStorageCmdResp_table_witness :
    rangeERRORS ERRORS.reverse (utf8 "EXISTS\r\n") = checkStorageCmdResp (utf8 "EXISTS\r\n") ∧
    (checkStorageCmdResp (utf8 "EXISTS\r\n") = none ↔ utf8 "EXISTS\r\n" = utf8 "STORED\r\n") ∧
    (checkStorageCmdResp (utf8 "EXISTS\r\n") = some (.NotStoredError (utf8 "未能存储数据")) ↔
      utf8 "EXISTS\r\n" = utf8 "NOT_STORED\r\n") ∧
    (checkStorageCmdResp (utf8 "EXISTS\r\n") =
        some (.ExistsError (utf8 "数据已存在/已被别人修改")) ↔
      utf8 "EXISTS\r\n" = utf8 "EXISTS\r\n") ∧
    (checkStorageCmdResp (utf8 "EXISTS\r\n") = some (.NotFoundError (utf8 "未找到对应的数据")) ↔
      utf8 "EXISTS\r\n" = utf8 "NOT_FOUND\r\n") ∧
    (utf8 "EXISTS\r\n" ≠ utf8 "STORED\r\n" → utf8 "EXISTS\r\n" ≠ utf8 "NOT_STORED\r\n" →
      utf8 "EXISTS\r\n" ≠ utf8 "EXISTS\r\n" → utf8 "EXISTS\r\n" ≠ utf8 "NOT_FOUND\r\n" →
      checkStorageCmdResp (utf8 "EXISTS\r\n") =
        some (.errorsNew (utf8 "未知错误：" ++ utf8 "EXISTS\r\n"))) :=
  checkStorageCmdResp_table ERRORS.reverse (List.reverse_perm ERRORS) (utf8 "EXISTS\r\n")

/-! ### The error lines -/

/-- The pattern `.+\r\n` matches a non-empty text without line feed followed by
`"\r\n"`. -/
theorem dotPlusThen_text (text rest : GoString) (hne : text ≠ []) (hlf : 10 ∉ text) :
    dotPlusThen CRLF (text ++ CRLF ++ rest) = true := by
  induction text with
  | nil => exact absurd rfl hne
  | cons c t ih =>
    have hc : c ≠ 10 := fun h => hlf (by simp [h])
    have ht : 10 ∉ t := fun h => hlf (List.mem_cons_of_mem _ h)
    cases t with
    | nil => simp [dotPlusThen, CRLF, List.isPrefixOf, hc]
    | cons d t =>
      have := ih (by simp) ht
      rw [List.cons_append, List.cons_append, dotPlusThen, this]
      simp [hc]

/-- A pattern that matches right after the literal `pre` matches the text that starts
with `pre`. -/
theorem MatchString_at_start (pre post x : GoString) (h : dotPlusThen post x = true) :
    MatchString pre post (pre ++ x) = true := by
  have hpre : pre.isPrefixOf (pre ++ x) = true :=
    List.isPrefixOf_iff_prefix.mpr (List.prefix_append pre x)
  have hdrop : (pre ++ x).drop pre.length = x := List.drop_left pre x
  cases hs : pre ++ x with
  | nil =>
    rw [hs] at hpre hdrop
    rw [MatchString, hpre, hdrop, h]
    rfl
  | cons c rest =>
    rw [hs] at hpre hdrop
    rw [MatchString, hpre, hdrop, h]
    rfl

/-- Trailing bytes of the cutset are removed up to the last byte outside the cutset. -/
theorem TrimRight_append_cons (a t cutset : GoString) (x : Nat) (hx : x ∉ cutset) :
    TrimRight (a ++ x :: t) cutset = a ++ x :: TrimRight t cutset := by
  have hdw : ∀ l : GoString,
      (l ++ x :: a.reverse).dropWhile (fun c => decide (c ∈ cutset)) =
        l.dropWhile (fun c => decide (c ∈ cutset)) ++ x :: a.reverse := by
    intro l
    induction l with
    | nil => simp [List.dropWhile, hx]
    | cons y l ih =>
      by_cases hy : y ∈ cutset
      · simp [List.dropWhile, hy, ih]
      · simp [List.dropWhile, hy]
  unfold TrimRight
  rw [List.reverse_append, List.reverse_cons, List.append_assoc, List.singleton_append, hdw]
  simp

/-- The `"\r\n"` that ends a text is trimmed. -/
theorem TrimRight_append_CRLF (s : GoString) : TrimRight (s ++ CRLF) CRLF = TrimRight s CRLF := by
  simp [TrimRight, CRLF, List.dropWhile]

/-- On a text that is not `"ERROR\r\n"` and that one of the two patterns matches,
`checkError` returns the error made of the text without its trailing line breaks. -/
theorem checkError_of_match (resp : GoString) (hne : resp ≠ utf8 "ERROR\r\n")
    (hm : MatchString (utf8 "CLIENT_ERROR ") CRLF resp = true ∨
      MatchString (utf8 "SERVER_ERROR ") CRLF resp = true) :
    checkError resp = some (.errorsNew (utf8 "发生错误：" ++ TrimRight resp CRLF)) := by
  unfold checkError
  rw [if_neg hne]
  by_cases h1 : MatchString (utf8 "CLIENT_ERROR ") CRLF resp = true
  · rw [if_pos h1]
  · rw [if_neg h1]
    rcases hm with h | h
    · exact absurd h h1
    · rw [if_pos h]

/-- C12 (as stated, refuted): on `"CLIENT_ERROR bad command line format\r\n"` the error
returned is the generic error of `errors.New` and its message is not
`"bad command line format"`: it keeps the prefix `"CLIENT_ERROR "` after the words
`"发生错误："`; and on an error line with an empty text, or with a line feed in its text,
`checkError` returns nil. -/
theorem checkError_message_counterexample :
    checkError (utf8 "CLIENT_ERROR bad command line format\r\n") =
      some (.errorsNew (utf8 "发生错误：CLIENT_ERROR bad command line format")) ∧
    utf8 "发生错误：CLIENT_ERROR bad command line format" ≠ utf8 "bad command line format" ∧
    checkError (utf8 "CLIENT_ERROR \r\n") = none ∧
    checkError (utf8 "SERVER_ERROR a\nb\r\n") = none := by
  decide

/-- C12 (amended): for every response `"CLIENT_ERROR <text>\r\n"` (respectively
`"SERVER_ERROR <text>\r\n"`) whose text is not empty and holds no line feed, `checkError`
returns the error of `errors.New` whose message is `"发生错误："` followed by the response
without its trailing line breaks: the prefix `"CLIENT_ERROR "` (respectively
`"SERVER_ERROR "`) and the text without its trailing carriage returns. -/
theorem checkError_error_line (text : GoString) (hne : text ≠ []) (hlf : 10 ∉ text) :
    checkError (utf8 "CLIENT_ERROR " ++ text ++ CRLF) =
      some (.errorsNew (utf8 "发生错误：CLIENT_ERROR " ++ TrimRight text CRLF)) ∧
    checkError (utf8 "SERVER_ERROR " ++ text ++ CRLF) =
      some (.errorsNew (utf8 "发生错误：SERVER_ERROR " ++ TrimRight text CRLF)) := by
  have hmatch := dotPlusThen_text text [] hne hlf
  rw [List.append_nil] at hmatch
  constructor
  · have hC : utf8 "CLIENT_ERROR " = [67, 76, 73, 69, 78, 84, 95, 69, 82, 82, 79, 82] ++ [32] := by
      decide
    have hmsg : utf8 "发生错误：CLIENT_ERROR " = utf8 "发生错误：" ++ utf8 "CLIENT_ERROR " := by
      decide
    rw [checkError_of_match _ _
      (Or.inl (by rw [List.append_assoc]; exact MatchString_at_start _ _ _ hmatch))]
    · rw [TrimRight_append_CRLF, hmsg, hC, List.append_assoc, List.singleton_append,
        TrimRight_append_cons _ _ _ _ (by decide)]
      simp
    · rw [hC]
      intro h
      have := congrArg List.head? h
      revert this
      simp [utf8_END_line, show utf8 "ERROR\r\n" = [69, 82, 82, 79, 82, 13, 10] from by decide]
  · have hS : utf8 "SERVER_ERROR " = [83, 69, 82, 86, 69, 82, 95, 69, 82, 82, 79, 82] ++ [32] := by
      decide
    have hmsg : utf8 "发生错误：SERVER_ERROR " = utf8 "发生错误：" ++ utf8 "SERVER_ERROR " := by
      decide
    rw [checkError_of_match _ _
      (Or.inr (by rw [List.append_assoc]; exact MatchString_at_start _ _ _ hmatch))]
    · rw [TrimRight_append_CRLF, hmsg, hS, List.append_assoc, List.singleton_append,
        TrimRight_append_cons _ _ _ _ (by decide)]
      simp
    · rw [hS]
      intro h
      have := congrArg List.head? h
      revert this
      simp [show utf8 "ERROR\r\n" = [69, 82, 82, 79, 82, 13, 10] from by decide]

/-- C12 (amended), on `"CLIENT_ERROR bad command line format\r\n"`. -/
theorem checkError_error_line_witness :
    checkError (utf8 "CLIENT_ERROR " ++ utf8 "bad command line format" ++ CRLF) =
      some (.errorsNew (utf8 "发生错误：CLIENT_ERROR " ++
        TrimRight (utf8 "bad command line format") CRLF)) ∧
    checkError (utf8 "SERVER_ERROR " ++ utf8 "bad command line format" ++ CRLF) =
      some (.errorsNew (utf8 "发生错误：SERVER_ERROR " ++
        TrimRight (utf8 "bad command line format") CRLF)) :=
  checkError_error_line (utf8 "bad command line format") (by decide) (by decide)

/-! ### The result of a storage command -/

/-- An error reported by `checkError` is never the unknown-response error of
`checkStorageCmdResp`: the two messages start with different words. -/
theorem checkError_ne_unknown (resp : GoString) (err : GoError)
    (h : checkError resp = some err) (raw : GoString) :
    err ≠ .errorsNew (utf8 "未知错误：" ++ raw) := by
  have hhead : ∀ t : GoString, GoError.errorsNew (utf8 "发生错误：" ++ t) ≠
      .errorsNew (utf8 "未知错误：" ++ raw) := by
    intro t heq
    have h1 : utf8 "发生错误：" = 229 :: [143, 145, 231, 148, 159, 233, 148, 153, 232, 175,
      175, 239, 188, 154] := by decide
    have h2 : utf8 "未知错误：" = 230 :: [156, 170, 231, 159, 165, 233, 148, 153, 232, 175,
      175, 239, 188, 154] := by decide
    rw [h1, h2] at heq
    simp at heq
  unfold checkError at h
  split at h
  · have hE : utf8 "发生错误：ERROR" = utf8 "发生错误：" ++ utf8 "ERROR" := by decide
    rw [hE] at h
    cases h
    exact hhead _
  · split at h
    · cases h
      exact hhead _
    · split at h
      · cases h
        exact hhead _
      · cases h

/-- The error classifier reports the line `"ERROR\r\n"` and every line
`"CLIENT_ERROR <text>\r\n"` or `"SERVER_ERROR <text>\r\n"` whose text is not empty and
holds no line feed. -/
theorem checkError_reports_line (resp text : GoString) (hne : text ≠ []) (hlf : 10 ∉ text)
    (hline : resp = utf8 "ERROR\r\n" ∨ resp = utf8 "CLIENT_ERROR " ++ text ++ CRLF ∨
      resp = utf8 "SERVER_ERROR " ++ text ++ CRLF) :
    ∃ err, checkError resp = some err := by
  have hmatch := dotPlusThen_text text [] hne hlf
  rw [List.append_nil] at hmatch
  have hE : utf8 "ERROR\r\n" = [69, 82, 82, 79, 82, 13, 10] := by decide
  rcases hline with h | h | h
  · subst h
    exact ⟨.errorsNew (utf8 "发生错误：ERROR"), by decide⟩
  · subst h
    refine ⟨_, checkError_of_match _ ?_
      (Or.inl (by rw [List.append_assoc]; exact MatchString_at_start _ _ _ hmatch))⟩
    have hC : utf8 "CLIENT_ERROR " = 67 :: [76, 73, 69, 78, 84, 95, 69, 82, 82, 79, 82, 32] := by
      decide
    rw [hC, hE]
    intro h
    have := congrArg List.head? h
    simp at this
  · subst h
    refine ⟨_, checkError_of_match _ ?_
      (Or.inr (by rw [List.append_assoc]; exact MatchString_at_start _ _ _ hmatch))⟩
    have hS : utf8 "SERVER_ERROR " = 83 :: [69, 82, 86, 69, 82, 95, 69, 82, 82, 79, 82, 32] := by
      decide
    rw [hS, hE]
    intro h
    have := congrArg List.head? h
    simp at this

/-- C13 (as stated, refuted): a reply that is a `CLIENT_ERROR` line, beginning with
`"CLIENT_ERROR "` and ending with `"\r\n"`, can be reported as an unknown response: on
`"CLIENT_ERROR \r\n"`, whose text is empty, `checkError` returns nil and
`runStorageCmd` returns the unknown-response error of `checkStorageCmdResp`. -/
theorem runStorageCmd_error_line_counterexample :
    ¬ ∀ (conn : Connection) (cmdName : GoString) (args : storageCmdArgStruct)
        (request : List GoString) (resp : GoString),
        storageRequest cmdName args = .ok request → conn request = .ok resp →
        HasPrefix resp (utf8 "CLIENT_ERROR ") = true → CRLF.isSuffixOf resp = true →
        ∀ raw, (runStorageCmd conn cmdName args).1 ≠
          .error (.errorsNew (utf8 "未知错误：" ++ raw)) := by
  intro h
  have hrun : (runStorageCmd (replyWith (utf8 "CLIENT_ERROR \r\n")) (utf8 "set")
      (typedArgs (utf8 "k") (utf8 "v") none none none)).1 =
      .error (.errorsNew (utf8 "未知错误：" ++ utf8 "CLIENT_ERROR \r\n")) := by decide
  exact h (replyWith (utf8 "CLIENT_ERROR \r\n")) (utf8 "set")
    (typedArgs (utf8 "k") (utf8 "v") none none none)
    [utf8 "set k 123456 0 1\r\n", utf8 "v\r\n"] (utf8 "CLIENT_ERROR \r\n")
    (by decide) rfl (by decide) (by decide) (utf8 "CLIENT_ERROR \r\n") hrun

/-- C13 (amended): for every storage command whose arguments make `runStorageCmd` reach
`Send`, the result is the composition of the specification: the error of the transport
unchanged; otherwise the error reported by `checkError` on the response, which is never
the unknown-response error; otherwise the answer of `checkStorageCmdResp` on the
response. So the line `"ERROR\r\n"` and every `CLIENT_ERROR` or `SERVER_ERROR` line whose
text is not empty and holds no line feed is reported with the error of `checkError`,
never as an unknown response. -/
theorem runStorageCmd_composition (conn : Connection) (cmdName : GoString)
    (args : storageCmdArgStruct) (request : List GoString)
    (hreq : storageRequest cmdName args = .ok request) :
    (runStorageCmd conn cmdName args).1 = storageResultSpec (conn request) ∧
    (∀ err, conn request = .error err → (runStorageCmd conn cmdName args).1 = .error err) ∧
    (∀ resp err, conn request = .ok resp → checkError resp = some err →
      (runStorageCmd conn cmdName args).1 = .error err ∧
        ∀ raw, err ≠ .errorsNew (utf8 "未知错误：" ++ raw)) ∧
    (∀ resp, conn request = .ok resp → checkError resp = none →
      (runStorageCmd conn cmdName args).1 =
        match checkStorageCmdResp resp with
        | some err => .error err
        | none => .ok ()) ∧
    (∀ resp text, text ≠ [] → 10 ∉ text →
      (resp = utf8 "ERROR\r\n" ∨ resp = utf8 "CLIENT_ERROR " ++ text ++ CRLF ∨
        resp = utf8 "SERVER_ERROR " ++ text ++ CRLF) →
      conn request = .ok resp →
      ∃ err, checkError resp = some err ∧
        (runStorageCmd conn cmdName args).1 = .error err ∧
        ∀ raw, err ≠ .errorsNew (utf8 "未知错误：" ++ raw)) := by
  have hrun : (runStorageCmd conn cmdName args).1 = storageResultSpec (conn request) := by
    unfold runStorageCmd storageResultSpec
    rw [hreq]
    dsimp only
    cases conn request with
    | error err => rfl
    | ok resp =>
      dsimp only
      cases checkError resp with
      | some err => rfl
      | none =>
        dsimp only
        cases checkStorageCmdResp resp <;> rfl
  have hreported : ∀ resp err, conn request = .ok resp → checkError resp = some err →
      (runStorageCmd conn cmdName args).1 = .error err ∧
        ∀ raw, err ≠ .errorsNew (utf8 "未知错误：" ++ raw) := by
    intro resp err hresp hce
    refine ⟨?_, checkError_ne_unknown resp err hce⟩
    rw [hrun, hresp]
    simp only [storageResultSpec, hce]
  refine ⟨hrun, ?_, hreported, ?_, ?_⟩
  · intro err herr
    rw [hrun, herr]
    rfl
  · intro resp hresp hce
    rw [hrun, hresp]
    simp only [storageResultSpec, hce]
  · intro resp text hne hlf hline hresp
    obtain ⟨err, herr⟩ := checkError_reports_line resp text hne hlf hline
    exact ⟨err, herr, hreported resp err hresp herr⟩

/-- C13 (amended), for `set k v` and a connection that answers `"SERVER_ERROR out of memory\r\n"`:
the result is the error of `checkError`. -/
theorem runStorageCmd_composition_witness :
    (runStorageCmd (replyWith (utf8 "SERVER_ERROR out of memory\r\n")) (utf8 "set")
        (typedArgs (utf8 "k") (utf8 "v") none none none)).1 =
      .error (.errorsNew (utf8 "发生错误：SERVER_ERROR out of memory")) :=
  ((runStorageCmd_composition (replyWith (utf8 "SERVER_ERROR out of memory\r\n")) (utf8 "set")
      (typedArgs (utf8 "k") (utf8 "v") none none none)
      [utf8 "set k 123456 0 1\r\n", utf8 "v\r\n"] (by decide)).2.2.1
    (utf8 "SERVER_ERROR out of memory\r\n")
    (.errorsNew (utf8 "发生错误：SERVER_ERROR out of memory")) rfl (by decide)).1

/-! ### The parser on malformed responses -/

/-- C14 (failing inputs): the parser panics on a slice bound out of range, on a declared
length that reaches past the body (`"VALUE a 0 9\r\nfoo\r\nEND\r\n"`), on a value
followed by a single byte (`"VALUE a 0 2\r\nfoo\r\nEND\r\n"`), on a negative length
(`"VALUE a 0 -1\r\nfoo\r\nEND\r\n"`) and on a text shorter than the seven bytes cut at the
end (`"\r\nEND"`). -/
theorem parseFetchResp_panics :
    parseFetchResp (utf8 "VALUE a 0 9\r\nfoo\r\nEND\r\n") = .panic ∧
    parseFetchResp (utf8 "VALUE a 0 2\r\nfoo\r\nEND\r\n") = .panic ∧
    parseFetchResp (utf8 "VALUE a 0 -1\r\nfoo\r\nEND\r\n") = .panic ∧
    parseFetchResp (utf8 "\r\nEND") = .panic := by
  decide

/-- C15 (failing inputs): with the fourth field `"x"`, or empty, `Atoi` reports an error
that the parser discards: the length is taken to be 0 and an entry with an empty value is
returned with no error; with the fourth field `"-1"` the parser panics. -/
theorem parseFetchResp_bad_length :
    Atoi (utf8 "x") = (0, false) ∧
    parseFetchResp (utf8 "VALUE a 0 x\r\n" ++ [] ++ utf8 "\r\nEND\r\n") =
      .ok [(utf8 "a", [])] ∧
    Atoi [] = (0, false) ∧
    parseFetchResp (utf8 "VALUE a 0 \r\n" ++ [] ++ utf8 "\r\nEND\r\n") =
      .ok [(utf8 "a", [])] ∧
    Atoi (utf8 "-1") = (-1, true) ∧
    parseFetchResp (utf8 "VALUE a 0 -1\r\n" ++ utf8 "foo" ++ utf8 "\r\nEND\r\n") = .panic := by
  decide

/-- One iteration of the loop that goes on. -/
theorem fetchLoop_next (fuel : Nat) (resp rest : GoString) (kv kv' : GoMap)
    (hpos : 0 < resp.length) (hstep : fetchStep resp kv = .next rest kv') :
    fetchLoop (fuel + 1) resp kv = fetchLoop fuel rest kv' := by
  rw [fetchLoop, if_pos hpos, hstep]

/-- One iteration of the loop that fails. -/
theorem fetchLoop_fail (fuel : Nat) (resp : GoString) (kv : GoMap) (e : GoError)
    (hpos : 0 < resp.length) (hstep : fetchStep resp kv = .fail e) :
    fetchLoop (fuel + 1) resp kv = .error e := by
  rw [fetchLoop, if_pos hpos, hstep]

/-- C16: for every response `M ++ "\r\n" ++ rest ++ "\r\nEND\r\n"` whose meta line `M`
begins with `"VALUE "`, contains no `"\r\n"` and does not split on single spaces into
exactly 4 fields, `parseFetchResp` returns the error `NotValidRespError` (and no map). -/
theorem parseFetchResp_field_count (M rest : GoString) (hpre : utf8 "VALUE " <+: M)
    (hcrlf : ¬ CRLF <:+: M) (hfields : (Split M (utf8 " ")).length ≠ 4) :
    parseFetchResp (M ++ CRLF ++ rest ++ utf8 "\r\nEND\r\n") =
      .error (.NotValidRespError NOT_VALID_RESP_MSG) := by
  rw [parseFetchResp_sentinel]
  have hpos : 0 < (M ++ CRLF ++ rest).length := by simp [CRLF]
  apply fetchLoop_fail _ _ _ _ hpos
  have hstart : HasPrefix (M ++ CRLF ++ rest) (utf8 "VALUE ") = true := by
    rw [HasPrefix, List.isPrefixOf_iff_prefix, List.append_assoc]
    exact hpre.trans (List.prefix_append _ _)
  have hidx : Index (M ++ CRLF ++ rest) CRLF = some M.length := by
    have := Index_CRLF_append M rest ((Index_eq_none_iff _ _).mpr hcrlf)
    simpa [CRLF] using this
  have htake : (M ++ CRLF ++ rest).take M.length = M := by simp [List.append_assoc]
  unfold fetchStep
  rw [hstart, hidx]
  simp only [htake]
  rw [if_neg (by simp), if_pos hfields]

/-- C16, on a meta line of five fields (with a cas token), of three fields, and with two
consecutive spaces. -/
theorem parseFetchResp_field_count_witness :
    parseFetchResp (utf8 "VALUE a 0 3 77" ++ CRLF ++ utf8 "foo" ++ utf8 "\r\nEND\r\n") =
      .error (.NotValidRespError NOT_VALID_RESP_MSG) ∧
    parseFetchResp (utf8 "VALUE a 3" ++ CRLF ++ utf8 "foo" ++ utf8 "\r\nEND\r\n") =
      .error (.NotValidRespError NOT_VALID_RESP_MSG) ∧
    parseFetchResp (utf8 "VALUE a  0 3" ++ CRLF ++ utf8 "foo" ++ utf8 "\r\nEND\r\n") =
      .error (.NotValidRespError NOT_VALID_RESP_MSG) :=
  ⟨parseFetchResp_field_count (utf8 "VALUE a 0 3 77") (utf8 "foo") (by decide) (by decide)
      (by decide),
    parseFetchResp_field_count (utf8 "VALUE a 3") (utf8 "foo") (by decide) (by decide)
      (by decide),
    parseFetchResp_field_count (utf8 "VALUE a  0 3") (utf8 "foo") (by decide) (by decide)
      (by decide)⟩

/-! ### The bytes between two blocks -/

/-- The parser on two blocks separated by any two bytes. -/
theorem parseFetchResp_two_blocks (e1 e2 : Entry) (s : GoString) (hs : s.length = 2)
    (hk1 : 32 ∉ e1.key ∧ ¬ CRLF <:+: e1.key) (hf1 : 32 ∉ e1.flags ∧ ¬ CRLF <:+: e1.flags)
    (hk2 : 32 ∉ e2.key ∧ ¬ CRLF <:+: e2.key) (hf2 : 32 ∉ e2.flags ∧ ¬ CRLF <:+: e2.flags)
    (hlen : (metaLine e1 ++ CRLF ++ e1.value ++ s ++ metaLine e2 ++ CRLF ++ e2.value).length
      < 2 ^ 63) :
    parseFetchResp (metaLine e1 ++ CRLF ++ e1.value ++ s ++ metaLine e2 ++ CRLF ++ e2.value ++
        utf8 "\r\nEND\r\n") =
      .ok (mapSet (mapSet [] e1.key e1.value) e2.key e2.value) := by
  rw [parseFetchResp_sentinel]
  have hbody : metaLine e1 ++ CRLF ++ e1.value ++ s ++ metaLine e2 ++ CRLF ++ e2.value =
      metaLine e1 ++ CRLF ++ e1.value ++ (s ++ (metaLine e2 ++ CRLF ++ e2.value ++ [])) := by
    simp
  rw [hbody] at hlen ⊢
  have hpos1 := metaLine_length_pos e1
  have hpos2 := metaLine_length_pos e2
  have hstep1 := fetchStep_block e1 (s ++ (metaLine e2 ++ CRLF ++ e2.value ++ [])) []
    hk1.1 hk1.2 hf1.1 hf1.2 hlen
  have hne : s ++ (metaLine e2 ++ CRLF ++ e2.value ++ []) ≠ [] := by
    intro h
    have hnil := (List.append_eq_nil.mp h).1
    rw [hnil] at hs
    simp at hs
  have hlen2 : ¬ (s ++ (metaLine e2 ++ CRLF ++ e2.value ++ [])).length < 2 := by
    simp only [List.length_append]
    omega
  rw [if_neg hne, if_neg hlen2, List.drop_left' hs] at hstep1
  have hstep2 := fetchStep_block e2 [] (mapSet [] e1.key e1.value) hk2.1 hk2.2 hf2.1 hf2.2
    (by simp only [List.length_append, List.length_nil] at hlen ⊢; omega)
  rw [if_pos rfl] at hstep2
  have h7 : ∀ n : Nat, n + 7 = (n + 5) + 1 + 1 := fun n => rfl
  rw [h7, fetchLoop_next _ _ _ _ _ (by simp only [List.length_append]; omega) hstep1,
    fetchLoop_next _ _ _ _ _ (by simp only [List.length_append]; omega) hstep2,
    fetchLoop_nil]

/-- C17: for every pair of well-formed blocks with distinct keys and every sequence `s`
of two bytes, `parseFetchResp` on `"VALUE k1 f1 n1\r\n<v1>" ++ s ++
"VALUE k2 f2 n2\r\n<v2>\r\nEND\r\n"` returns the result it returns with `s = "\r\n"`:
the map that holds `v1` at `k1` and `v2` at `k2`. -/
theorem separator_not_inspected (e1 e2 : Entry) (s : GoString) (hs : s.length = 2)
    (hkeys : e1.key ≠ e2.key)
    (hk1 : 32 ∉ e1.key ∧ ¬ CRLF <:+: e1.key) (hf1 : 32 ∉ e1.flags ∧ ¬ CRLF <:+: e1.flags)
    (hk2 : 32 ∉ e2.key ∧ ¬ CRLF <:+: e2.key) (hf2 : 32 ∉ e2.flags ∧ ¬ CRLF <:+: e2.flags)
    (hlen : (metaLine e1 ++ CRLF ++ e1.value ++ s ++ metaLine e2 ++ CRLF ++ e2.value).length
      < 2 ^ 63) :
    parseFetchResp (metaLine e1 ++ CRLF ++ e1.value ++ s ++ metaLine e2 ++ CRLF ++ e2.value ++
        utf8 "\r\nEND\r\n") =
      parseFetchResp (metaLine e1 ++ CRLF ++ e1.value ++ CRLF ++ metaLine e2 ++ CRLF ++
        e2.value ++ utf8 "\r\nEND\r\n") ∧
    parseFetchResp (metaLine e1 ++ CRLF ++ e1.value ++ s ++ metaLine e2 ++ CRLF ++ e2.value ++
        utf8 "\r\nEND\r\n") =
      .ok [(e1.key, e1.value), (e2.key, e2.value)] := by
  have hmap : mapSet (mapSet [] e1.key e1.value) e2.key e2.value =
      [(e1.key, e1.value), (e2.key, e2.value)] := by
    simp [mapSet, hkeys]
  have hlen' : (metaLine e1 ++ CRLF ++ e1.value ++ CRLF ++ metaLine e2 ++ CRLF ++
      e2.value).length < 2 ^ 63 := by
    simp only [List.length_append, hs] at hlen
    simp only [List.length_append, show CRLF.length = 2 from rfl]
    exact hlen
  rw [parseFetchResp_two_blocks e1 e2 s hs hk1 hf1 hk2 hf2 hlen,
    parseFetchResp_two_blocks e1 e2 CRLF rfl hk1 hf1 hk2 hf2 hlen', hmap]
  exact ⟨rfl, rfl⟩

/-- C17, for the blocks of `a -> "foo"` and `b -> "xy"` separated by the two bytes
`"zz"`. -/
theorem separator_not_inspected_witness :
    parseFetchResp (utf8 "VALUE a 0 3\r\nfoozzVALUE b 1 2\r\nxy\r\nEND\r\n") =
      .ok [(utf8 "a", utf8 "foo"), (utf8 "b", utf8 "xy")] ∧
    parseFetchResp (metaLine ⟨utf8 "a", utf8 "0", utf8 "foo"⟩ ++ CRLF ++ utf8 "foo" ++
        utf8 "zz" ++ metaLine ⟨utf8 "b", utf8 "1", utf8 "xy"⟩ ++ CRLF ++ utf8 "xy" ++
        utf8 "\r\nEND\r\n") =
      .ok [(utf8 "a", utf8 "foo"), (utf8 "b", utf8 "xy")] :=
  ⟨by decide,
    (separator_not_inspected ⟨utf8 "a", utf8 "0", utf8 "foo"⟩ ⟨utf8 "b", utf8 "1", utf8 "xy"⟩
      (utf8 "zz") (by decide) (by decide) (by decide) (by decide) (by decide) (by decide)
      (by decide)).2⟩

/-! ### Blocks with the same key -/

/-- The keys of a map after a write: the same keys when the key was there, one more key
otherwise. -/
theorem mapSet_keys (m : GoMap) (k v : GoString) :
    (mapSet m k v).map Prod.fst =
      if k ∈ m.map Prod.fst then m.map Prod.fst else m.map Prod.fst ++ [k] := by
  induction m with
  | nil => simp [mapSet]
  | cons p m ih =>
    obtain ⟨a, b⟩ := p
    by_cases hak : a = k
    · subst hak
      simp [mapSet]
    · have hka : ¬ k = a := fun h => hak h.symm
      simp only [mapSet, if_neg hak, List.map_cons, ih, List.mem_cons, hka, false_or]
      split <;> simp

/-- A write keeps the keys of a map distinct. -/
theorem mapSet_nodup (m : GoMap) (k v : GoString) (h : (m.map Prod.fst).Nodup) :
    ((mapSet m k v).map Prod.fst).Nodup := by
  rw [mapSet_keys]
  split
  · exact h
  · rename_i hk
    rw [List.nodup_append]
    refine ⟨h, List.nodup_singleton k, ?_⟩
    intro x hx hx2
    rw [List.mem_singleton] at hx2
    exact hk (hx2 ▸ hx)

/-- A write adds at most one entry to a map. -/
theorem mapSet_length (m : GoMap) (k v : GoString) : (mapSet m k v).length ≤ m.length + 1 := by
  have h := congrArg List.length (mapSet_keys m k v)
  rw [List.length_map] at h
  rw [h]
  split <;> simp

/-- Storing entries keeps the keys of the map distinct and adds at most one entry for
each of them. -/
theorem storeAll_nodup_length (es : List Entry) (kv : GoMap) (h : (kv.map Prod.fst).Nodup) :
    ((storeAll kv es).map Prod.fst).Nodup ∧ (storeAll kv es).length ≤ kv.length + es.length := by
  induction es generalizing kv with
  | nil => exact ⟨h, Nat.le_refl _⟩
  | cons e rest ih =>
    have hstep : storeAll kv (e :: rest) = storeAll (mapSet kv e.key e.value) rest := rfl
    obtain ⟨h1, h2⟩ := ih (mapSet kv e.key e.value) (mapSet_nodup kv _ _ h)
    rw [hstep]
    refine ⟨h1, ?_⟩
    have := mapSet_length kv e.key e.value
    simp only [List.length_cons]
    omega

/-- After storing entries, the map holds at a key the value of the last entry that has
this key, and what it held before when no entry has it. -/
theorem mapGet_storeAll (es : List Entry) (kv : GoMap) (k : GoString) :
    mapGet (storeAll kv es) k =
      match es.reverse.find? (fun e => decide (e.key = k)) with
      | some e => some e.value
      | none => mapGet kv k := by
  induction es generalizing kv with
  | nil => rfl
  | cons e rest ih =>
    have hstep : storeAll kv (e :: rest) = storeAll (mapSet kv e.key e.value) rest := rfl
    rw [hstep, ih, List.reverse_cons, List.find?_append]
    cases hfind : rest.reverse.find? (fun e => decide (e.key = k)) with
    | some e' => rfl
    | none =>
      simp only [Option.none_or, mapGet_mapSet]
      by_cases hk : e.key = k <;> simp [List.find?, hk]

/-- Storing entries adds fewer entries than there are entries to store when one of them
has a key that the map already holds or when two of them have the same key. -/
theorem storeAll_length_lt (es : List Entry) (kv : GoMap)
    (h : (∃ x ∈ es, x.key ∈ kv.map Prod.fst) ∨ ¬ (es.map Entry.key).Nodup) :
    (storeAll kv es).length < kv.length + es.length := by
  induction es generalizing kv with
  | nil => simp at h
  | cons e rest ih =>
    have hstep : storeAll kv (e :: rest) = storeAll (mapSet kv e.key e.value) rest := rfl
    have hkeys := mapSet_keys kv e.key e.value
    have hlen := congrArg List.length hkeys
    rw [List.length_map] at hlen
    rw [hstep, List.length_cons]
    by_cases hmem : e.key ∈ kv.map Prod.fst
    · rw [if_pos hmem, List.length_map] at hlen
      have hle : (storeAll (mapSet kv e.key e.value) rest).length ≤
          (mapSet kv e.key e.value).length + rest.length := by
        clear ih h hstep hkeys hlen hmem
        generalize mapSet kv e.key e.value = m
        induction rest generalizing m with
        | nil => exact Nat.le_refl _
        | cons x rest ih2 =>
          have := ih2 (mapSet m x.key x.value)
          have h2 := mapSet_length m x.key x.value
          have hs : storeAll m (x :: rest) = storeAll (mapSet m x.key x.value) rest := rfl
          rw [hs, List.length_cons]
          omega
      omega
    · rw [if_neg hmem, List.length_append, List.length_map] at hlen
      rw [if_neg hmem] at hkeys
      have hrest : (∃ x ∈ rest, x.key ∈ (mapSet kv e.key e.value).map Prod.fst) ∨
          ¬ (rest.map Entry.key).Nodup := by
        rcases h with ⟨x, hx, hxk⟩ | hnd
        · rcases List.mem_cons.mp hx with hxe | hxr
          · subst hxe
            exact absurd hxk hmem
          · exact Or.inl ⟨x, hxr, by rw [hkeys]; exact List.mem_append_left _ hxk⟩
        · rw [List.map_cons, List.nodup_cons, not_and_or, not_not] at hnd
          rcases hnd with hin | hnd
          · obtain ⟨x, hx, hxe⟩ := List.mem_map.mp hin
            exact Or.inl ⟨x, hx, by rw [hkeys, hxe]; simp⟩
          · exact Or.inr hnd
      have := ih (mapSet kv e.key e.value) hrest
      simp only [List.length_cons, List.length_nil] at hlen
      omega

/-- C18: for every well-formed fetch response, whether or not several of its blocks have
the same key, the map returned by `parseFetchResp` has a single entry for each key and
holds at a key the value of the last block of the response that has this key (and nothing
at a key of no block); it has at most as many entries as there are blocks, and fewer when
two blocks have the same key. -/
theorem duplicate_key_last_wins (es : List Entry) (hne : es ≠ [])
    (hkey : ∀ e ∈ es, 32 ∉ e.key ∧ ¬ CRLF <:+: e.key)
    (hflags : ∀ e ∈ es, 32 ∉ e.flags ∧ ¬ CRLF <:+: e.flags)
    (hlen : (fetchResponse es).length < 2 ^ 63) :
    ∃ m : GoMap, parseFetchResp (fetchResponse es) = .ok m ∧
      (m.map Prod.fst).Nodup ∧
      (∀ k, mapGet m k =
        (es.reverse.find? (fun e => decide (e.key = k))).map Entry.value) ∧
      m.length ≤ es.length ∧
      (¬ (es.map Entry.key).Nodup → m.length < es.length) := by
  refine ⟨storeAll [] es, ?_, ?_, ?_, ?_, ?_⟩
  · rw [fetchResponse_eq es hne] at hlen ⊢
    rw [parseFetchResp_sentinel]
    apply fetchLoop_blocksBody es hne hkey hflags
    · simp only [List.length_append] at hlen
      omega
    · have := length_le_blocksBody es
      omega
  · exact (storeAll_nodup_length es [] List.nodup_nil).1
  · intro k
    rw [mapGet_storeAll]
    cases es.reverse.find? (fun e => decide (e.key = k)) <;> rfl
  · have := (storeAll_nodup_length es [] List.nodup_nil).2
    simpa using this
  · intro hnd
    have := storeAll_length_lt es [] (Or.inr hnd)
    simpa using this

/-- C18, on the response `"VALUE a 0 1\r\nx\r\nVALUE a 0 1\r\ny\r\nEND\r\n"`: two blocks,
one entry, with the value of the second block. -/
theorem duplicate_key_last_wins_witness :
    fetchResponse [⟨utf8 "a", utf8 "0", utf8 "x"⟩, ⟨utf8 "a", utf8 "0", utf8 "y"⟩] =
        utf8 "VALUE a 0 1\r\nx\r\nVALUE a 0 1\r\ny\r\nEND\r\n" ∧
    parseFetchResp (utf8 "VALUE a 0 1\r\nx\r\nVALUE a 0 1\r\ny\r\nEND\r\n") =
        .ok [(utf8 "a", utf8 "y")] ∧
    ∃ m : GoMap,
      parseFetchResp
          (fetchResponse [⟨utf8 "a", utf8 "0", utf8 "x"⟩, ⟨utf8 "a", utf8 "0", utf8 "y"⟩]) =
        .ok m ∧
      (m.map Prod.fst).Nodup ∧
      (∀ k, mapGet m k =
        (([⟨utf8 "a", utf8 "0", utf8 "x"⟩, ⟨utf8 "a", utf8 "0", utf8 "y"⟩] :
          List Entry).reverse.find? (fun e => decide (e.key = k))).map Entry.value) ∧
      m.length ≤
        ([⟨utf8 "a", utf8 "0", utf8 "x"⟩, ⟨utf8 "a", utf8 "0", utf8 "y"⟩] : List Entry).length ∧
      (¬ (([⟨utf8 "a", utf8 "0", utf8 "x"⟩, ⟨utf8 "a", utf8 "0", utf8 "y"⟩] :
          List Entry).map Entry.key).Nodup →
        m.length <
          ([⟨utf8 "a", utf8 "0", utf8 "x"⟩, ⟨utf8 "a", utf8 "0", utf8 "y"⟩] :
            List Entry).length) :=
  ⟨by decide, by decide,
    duplicate_key_last_wins [⟨utf8 "a", utf8 "0", utf8 "x"⟩, ⟨utf8 "a", utf8 "0", utf8 "y"⟩]
      (by decide) (by decide) (by decide) (by decide)⟩

/-! ### Progress and termination of the scanning loop -/

/-- An iteration that goes on found the `"\r\n"` of a meta line and leaves a buffer
shorter by at least the meta line and its `"\r\n"`. -/
theorem fetchStep_progress (resp rest : GoString) (kv kv' : GoMap)
    (h : fetchStep resp kv = .next rest kv') :
    ∃ lineBreakPosition, Index resp CRLF = some lineBreakPosition ∧
      rest.length + (lineBreakPosition + 2) ≤ resp.length := by
  unfold fetchStep at h
  split at h
  · cases h
  · split at h
    · cases h
    · rename_i lineBreakPosition hidx
      refine ⟨lineBreakPosition, hidx, ?_⟩
      simp only [show CRLF.length = 2 from rfl] at h
      generalize int64 _ = dataEndPosition at h
      split at h
      · cases h
      · split at h
        · cases h
        · rename_i hbound
          split at h
          · rename_i hend
            injection h with h1 h2
            subst h1
            simp only [List.length_nil]
            omega
          · split at h
            · cases h
            · rename_i hadv
              injection h with h1 h2
              subst h1
              rw [List.length_drop]
              omega

/-- With at least as many iterations allowed as the buffer has bytes, the loop ends: it
returns, fails or panics, and its answer does not depend on the bound. -/
theorem fetchLoop_enough (fuel fuel' : Nat) (resp : GoString) (kv : GoMap)
    (hfuel : resp.length ≤ fuel) (hfuel' : resp.length ≤ fuel') :
    fetchLoop fuel resp kv ≠ .stuck ∧ fetchLoop fuel resp kv = fetchLoop fuel' resp kv := by
  induction fuel generalizing fuel' resp kv with
  | zero =>
    have hnil : resp = [] := List.length_eq_zero.mp (Nat.le_zero.mp hfuel)
    subst hnil
    rw [fetchLoop_nil, fetchLoop_nil]
    exact ⟨by simp, rfl⟩
  | succ fuel ih =>
    by_cases hpos : 0 < resp.length
    · cases fuel' with
      | zero => omega
      | succ fuel' =>
        rw [fetchLoop, fetchLoop, if_pos hpos, if_pos hpos]
        cases hstep : fetchStep resp kv with
        | fail e => exact ⟨by simp, rfl⟩
        | panic => exact ⟨by simp, rfl⟩
        | next rest kv' =>
          obtain ⟨lbp, -, hle⟩ := fetchStep_progress resp rest kv kv' hstep
          exact ih fuel' rest kv' (by omega) (by omega)
    · have hnil : resp = [] := List.length_eq_zero.mp (by omega)
      subst hnil
      rw [fetchLoop_nil, fetchLoop_nil]
      exact ⟨by simp, rfl⟩

/-- C19: every iteration of the scanning loop that does not fail leaves a buffer strictly
shorter than the one it started with, shorter by at least the meta line and its `"\r\n"`;
so the loop ends within `len` iterations on a buffer of `len` bytes (with any larger
bound the answer is the same), and `parseFetchResp`, which allows `len(raw)` iterations,
ends on every input. -/
theorem fetchLoop_terminates (resp : GoString) (kv : GoMap) (fuel : Nat)
    (hfuel : resp.length ≤ fuel) :
    (∀ rest kv', fetchStep resp kv = .next rest kv' →
      rest.length < resp.length ∧
        ∃ lineBreakPosition, Index resp CRLF = some lineBreakPosition ∧
          rest.length + (lineBreakPosition + 2) ≤ resp.length) ∧
    fetchLoop resp.length resp kv ≠ .stuck ∧
    fetchLoop fuel resp kv = fetchLoop resp.length resp kv ∧
    parseFetchResp resp ≠ .stuck := by
  refine ⟨?_, (fetchLoop_enough _ _ resp kv (Nat.le_refl _) (Nat.le_refl _)).1,
    (fetchLoop_enough _ _ resp kv hfuel (Nat.le_refl _)).2, ?_⟩
  · intro rest kv' hstep
    obtain ⟨lbp, hidx, hle⟩ := fetchStep_progress resp rest kv kv' hstep
    exact ⟨by omega, lbp, hidx, hle⟩
  · unfold parseFetchResp
    dsimp only
    split
    · simp
    · split
      · simp
      · split
        · simp
        · exact (fetchLoop_enough _ resp.length _ _ (by rw [List.length_take]; omega)
            (by rw [List.length_take]; omega)).1

/-- C19, on the body of the response `"VALUE a 0 3\r\nfoo\r\nVALUE b 0 0\r\n\r\nEND\r\n"`:
the first iteration leaves the second block, 16 bytes shorter. -/
theorem fetchLoop_terminates_witness :
    fetchStep (utf8 "VALUE a 0 3\r\nfoo\r\nVALUE b 0 0\r\n") [] =
      .next (utf8 "VALUE b 0 0\r\n") [(utf8 "a", utf8 "foo")] ∧
    (utf8 "VALUE b 0 0\r\n").length <
      (utf8 "VALUE a 0 3\r\nfoo\r\nVALUE b 0 0\r\n").length ∧
    fetchLoop 100 (utf8 "VALUE a 0 3\r\nfoo\r\nVALUE b 0 0\r\n") [] =
      fetchLoop (utf8 "VALUE a 0 3\r\nfoo\r\nVALUE b 0 0\r\n").length
        (utf8 "VALUE a 0 3\r\nfoo\r\nVALUE b 0 0\r\n") [] :=
  ⟨by decide,
    ((fetchLoop_terminates (utf8 "VALUE a 0 3\r\nfoo\r\nVALUE b 0 0\r\n") [] 100
      (by decide)).1 (utf8 "VALUE b 0 0\r\n") [(utf8 "a", utf8 "foo")] (by decide)).1,
    (fetchLoop_terminates (utf8 "VALUE a 0 3\r\nfoo\r\nVALUE b 0 0\r\n") [] 100
      (by decide)).2.2.1⟩

end Memcached
